import Mathlib

/-!
Verification of the lwext4-rust core (crate lwext4_core) against its
natural-language specification.

The Rust sources are shallowly embedded: machine integers become Nat
(the source arithmetic never overflows on the inputs considered, and
where the source saturates or truncates we model that explicitly),
fallible functions return Except, and the mutable filesystem state
(superblock, block-group descriptors, bitmaps, inode extent root)
is threaded explicitly.

Functions of the repository whose implementation is not under src/
(only their callers, declarations or tests are) are modelled from the
spec and carry a doc comment starting with: Modelled from the spec.
-/

set_option maxRecDepth 8000

deriving instance DecidableEq for Except

namespace Lwext4

/-- Error kinds used by lwext4_core's `Error` type (src/lwext4_core/src/error.rs;
only the kind is modelled, the static message strings are dropped). -/
inductive ErrorKind where
  | Corrupted
  | NoSpace
  | InvalidInput
  | Unsupported
  | NotFound
  | IOError
  deriving DecidableEq, Repr

/-- Result type of lwext4_core (`Result<T> = core::result::Result<T, Error>`). -/
abbrev Res (α : Type) := Except ErrorKind α

/-! ## Block device model (src/lwext4_core/src/block/device.rs, io.rs)

The raw `BlockDevice` is an external collaborator; we model it as a
byte-addressed store `bytes : Nat → Nat` together with the logical block
size. `BlockDev` is created with `partition_offset = 0` (`BlockDev::new`),
under which the sector translation `logical_to_physical` is the identity
on byte addresses, so `read_blocks(pba, count)` delivers the bytes
`[lba * block_size, (lba+1) * block_size)`. -/

structure BlockDevM where
  bytes : Nat → Nat
  block_size : Nat

/-- `BlockDev::read_block`: read one full logical block `lba`. -/
def BlockDevM.read_block (dev : BlockDevM) (lba : Nat) : List Nat :=
  (List.range dev.block_size).map (fun i => dev.bytes (lba * dev.block_size + i))

/-- `BlockDev::read_bytes`: byte-granular read at `offset` of length `len`.
Mirrors the source: compute `start_block`, `block_offset`, the number of
covered blocks, assemble them into a temporary buffer, then slice out
`[block_offset, block_offset + len)`. -/
def BlockDevM.read_bytes (dev : BlockDevM) (offset len : Nat) : List Nat :=
  let block_size := dev.block_size
  let start_block := offset / block_size
  let block_offset := offset % block_size
  let total_size := block_offset + len
  let block_count := (total_size + block_size - 1) / block_size
  let temp := (List.range block_count).flatMap
    (fun i => dev.read_block (start_block + i))
  ((temp.drop block_offset).take len)

/-- The temporary buffer assembled by `read_bytes` is the contiguous byte
range starting at `start_block * block_size`. -/
theorem flatMap_read_block (dev : BlockDevM) (s n : Nat) :
    (List.range n).flatMap (fun i => dev.read_block (s + i)) =
      (List.range (n * dev.block_size)).map
        (fun j => dev.bytes (s * dev.block_size + j)) := by
  induction n with
  | zero => simp
  | succ m ih =>
    rw [List.range_succ, List.flatMap_append, ih]
    have hadd : (m + 1) * dev.block_size = m * dev.block_size + dev.block_size := by
      ring
    rw [hadd, List.range_add, List.map_append]
    congr 1
    simp only [List.flatMap_cons, List.flatMap_nil, List.append_nil,
      BlockDevM.read_block, List.map_map]
    apply List.map_congr_left
    intro j _
    simp only [Function.comp_apply]
    congr 1
    ring

/-- For a positive block size, `read_bytes` returns exactly the device
bytes `[offset, offset + len)`: the block assembly and the final slice
cancel. -/
theorem BlockDevM.read_bytes_eq (dev : BlockDevM) (hbs : 0 < dev.block_size)
    (offset len : Nat) :
    dev.read_bytes offset len =
      (List.range len).map (fun i => dev.bytes (offset + i)) := by
  simp only [BlockDevM.read_bytes]
  rw [flatMap_read_block]
  set bs := dev.block_size with hbsdef
  set q := offset / bs with hq
  set r := offset % bs with hr
  set bc := (r + len + bs - 1) / bs with hbc
  have hrlen : r + len ≤ bc * bs := by
    have hdm := Nat.div_add_mod (r + len + bs - 1) bs
    have hmod : (r + len + bs - 1) % bs < bs := Nat.mod_lt _ hbs
    rw [← hbc] at hdm
    have hcomm : bc * bs = bs * bc := Nat.mul_comm bc bs
    omega
  apply List.ext_getElem
  · simp only [List.length_take, List.length_drop, List.length_map,
      List.length_range]
    omega
  · intro i h1 h2
    have hi : i < len := by
      simpa using h2
    have hlt : r + i < bc * bs := by omega
    simp only [List.getElem_take, List.getElem_drop, List.getElem_map,
      List.getElem_range]
    congr 1
    have hoff : q * bs + r = offset := by
      have hdm := Nat.div_add_mod offset bs
      rw [← hq, ← hr] at hdm
      have hcomm : q * bs = bs * q := Nat.mul_comm q bs
      omega
    omega

/-! ## Superblock (src/lwext4_core/src/types.rs, superblock/read.rs)

`ext4_sblock` is modelled with the fields the verified claims touch; the
remaining on-disk fields (uuid, volume name, reserved padding, ...) are
never read or written by the operations under verification.  Field values
are stored already little-endian-decoded, mirroring the `u{16,32}::from_le`
accessors of the source.  `desc_size` (byte offset 254 of the on-disk
layout) is used by `Superblock::group_desc_size` in src/ although the
copy of `types.rs` under src/ elides it among the reserved bytes. -/

structure ext4_sblock where
  inodes_count : Nat          -- offset 0, u32
  blocks_count_lo : Nat       -- offset 4, u32
  free_blocks_count_lo : Nat  -- offset 12, u32
  free_inodes_count : Nat     -- offset 16, u32
  first_data_block : Nat      -- offset 20, u32
  log_block_size : Nat        -- offset 24, u32
  blocks_per_group : Nat      -- offset 32, u32
  inodes_per_group : Nat      -- offset 40, u32
  mtime : Nat                 -- offset 44, u32
  wtime : Nat                 -- offset 48, u32
  mnt_count : Nat             -- offset 52, u16
  magic : Nat                 -- offset 56, u16
  state : Nat                 -- offset 58, u16
  lastcheck : Nat             -- offset 64, u32
  inode_size : Nat            -- offset 88, u16
  feature_compat : Nat        -- offset 92, u32
  feature_incompat : Nat      -- offset 96, u32
  feature_ro_compat : Nat     -- offset 100, u32
  blocks_count_hi : Nat       -- offset 200, u32
  free_blocks_count_hi : Nat  -- offset 208, u32
  desc_size : Nat             -- offset 254, u16
  checksum : Nat              -- offset 1020, u32
  deriving DecidableEq, Repr

/-- Little-endian u16 at byte offset `o` of a byte buffer. -/
def le16 (b : List Nat) (o : Nat) : Nat :=
  b.getD o 0 + 256 * b.getD (o + 1) 0

/-- Little-endian u32 at byte offset `o` of a byte buffer. -/
def le32 (b : List Nat) (o : Nat) : Nat :=
  b.getD o 0 + 256 * b.getD (o + 1) 0 + 65536 * b.getD (o + 2) 0 +
    16777216 * b.getD (o + 3) 0

/-- Deserialisation of the on-disk superblock from a 1024-byte buffer
(the `core::ptr::read_unaligned` in `read_superblock` combined with the
per-field `from_le` decoding of the accessors). -/
def parse_sblock (b : List Nat) : ext4_sblock where
  inodes_count := le32 b 0
  blocks_count_lo := le32 b 4
  free_blocks_count_lo := le32 b 12
  free_inodes_count := le32 b 16
  first_data_block := le32 b 20
  log_block_size := le32 b 24
  blocks_per_group := le32 b 32
  inodes_per_group := le32 b 40
  mtime := le32 b 44
  wtime := le32 b 48
  mnt_count := le16 b 52
  magic := le16 b 56
  state := le16 b 58
  lastcheck := le32 b 64
  inode_size := le16 b 88
  feature_compat := le32 b 92
  feature_incompat := le32 b 96
  feature_ro_compat := le32 b 100
  blocks_count_hi := le32 b 200
  free_blocks_count_hi := le32 b 208
  desc_size := le16 b 254
  checksum := le32 b 1020

/-- `EXT4_SUPERBLOCK_OFFSET` (src/lwext4_core/src/consts.rs). -/
def EXT4_SUPERBLOCK_OFFSET : Nat := 1024

/-- `EXT4_SUPERBLOCK_SIZE` (src/lwext4_core/src/consts.rs). -/
def EXT4_SUPERBLOCK_SIZE : Nat := 1024

/-- `EXT4_SUPERBLOCK_MAGIC` (src/lwext4_core/src/consts.rs). -/
def EXT4_SUPERBLOCK_MAGIC : Nat := 0xEF53

/-- Modelled from the spec: the implementation of `ext4_sblock::is_valid`
is not under src/ (src/lwext4_core/src/superblock/read.rs and its tests
only call it).  Per the spec, loading the superblock "validates magic and
feature-flag compatibility (refuse mount if an unknown `feature_incompat`
bit is set)".  `supp` is the mask of `feature_incompat` bits the engine
knows; a superblock is valid when the magic is 0xEF53 and every set
incompat bit lies inside `supp`. -/
def sblock_is_valid (supp : Nat) (sb : ext4_sblock) : Bool :=
  sb.magic == EXT4_SUPERBLOCK_MAGIC &&
    sb.feature_incompat &&& supp == sb.feature_incompat

/-- `read_superblock` (src/lwext4_core/src/superblock/read.rs): read
1024 bytes at offset 1024, deserialise, and validate. -/
def read_superblock (supp : Nat) (bdev : BlockDevM) : Res ext4_sblock :=
  let sb_buf := bdev.read_bytes EXT4_SUPERBLOCK_OFFSET EXT4_SUPERBLOCK_SIZE
  let sb := parse_sblock sb_buf
  if !(sblock_is_valid supp sb) then
    Except.error ErrorKind.Corrupted
  else
    Except.ok sb

/-- `Superblock::load` (src/lwext4_core/src/superblock/read.rs) just
wraps `read_superblock`. -/
def Superblock.load (supp : Nat) (bdev : BlockDevM) : Res ext4_sblock :=
  read_superblock supp bdev

/-! ## Superblock timestamp updates (src/lwext4_core/src/superblock/write.rs) -/

/-- `current_timestamp` (src/lwext4_core/src/superblock/write.rs): the
core has no clock integration; the function returns the constant 0
(its body is a TODO returning 0). -/
def current_timestamp : Nat := 0

/-- `Superblock::update_mount_time`. -/
def Superblock.update_mount_time (sb : ext4_sblock) : ext4_sblock :=
  { sb with mtime := current_timestamp }

/-- `Superblock::update_write_time`. -/
def Superblock.update_write_time (sb : ext4_sblock) : ext4_sblock :=
  { sb with wtime := current_timestamp }

/-- `Superblock::update_check_time`. -/
def Superblock.update_check_time (sb : ext4_sblock) : ext4_sblock :=
  { sb with lastcheck := current_timestamp }

/-- `Superblock::inc_write_count` (despite its name, the source assigns
`wtime := current_timestamp()`). -/
def Superblock.inc_write_count (sb : ext4_sblock) : ext4_sblock :=
  { sb with wtime := current_timestamp }

/-- All-zero superblock value (used to build concrete test states). -/
def sbZero : ext4_sblock := parse_sblock []

/-! ## Derived superblock accessors -/

/-- `get_block_size` (src/lwext4_core/src/superblock.rs):
`1024 << log_block_size`. -/
def ext4_sblock.block_size (sb : ext4_sblock) : Nat :=
  1024 <<< sb.log_block_size

/-- `get_inode_size` (src/lwext4_core/src/superblock.rs): stored inode
size, defaulting to 128 when the field is 0. -/
def ext4_sblock.inode_size_eff (sb : ext4_sblock) : Nat :=
  if sb.inode_size = 0 then 128 else sb.inode_size

/-- `EXT4_FEATURE_INCOMPAT_64BIT` (referenced in src/; the constant's
definition is not under src/ — standard ext4 value 0x80). -/
def EXT4_FEATURE_INCOMPAT_64BIT : Nat := 0x80

/-- `Superblock::has_incompat_feature` (src/lwext4_core/src/superblock/read.rs). -/
def Superblock.has_incompat_feature (sb : ext4_sblock) (f : Nat) : Bool :=
  sb.feature_incompat &&& f != 0

/-- `Superblock::has_ro_compat_feature` (src/lwext4_core/src/superblock/read.rs). -/
def Superblock.has_ro_compat_feature (sb : ext4_sblock) (f : Nat) : Bool :=
  sb.feature_ro_compat &&& f != 0

/-- `Superblock::is_64bit` (src/lwext4_core/src/superblock/read.rs). -/
def Superblock.is_64bit (sb : ext4_sblock) : Bool :=
  Superblock.has_incompat_feature sb EXT4_FEATURE_INCOMPAT_64BIT

/-- `Superblock::group_desc_size` (src/lwext4_core/src/superblock/read.rs):
64-bit images use `desc_size` (default 64), legacy images use 32. -/
def Superblock.group_desc_size (sb : ext4_sblock) : Nat :=
  if Superblock.is_64bit sb then
    if 0 < sb.desc_size then sb.desc_size else 64
  else 32

/-- `Superblock::free_blocks_count` (assembled from the lo/hi halves the
way `set_free_blocks_count` in src/lwext4_core/src/superblock/write.rs
splits them). -/
def ext4_sblock.free_blocks_count (sb : ext4_sblock) : Nat :=
  sb.free_blocks_count_lo + sb.free_blocks_count_hi * 4294967296

/-- `Superblock::set_free_blocks_count`
(src/lwext4_core/src/superblock/write.rs): stores the low 32 bits in
`free_blocks_count_lo` (the `as u32` truncation) and the rest in
`free_blocks_count_hi`. -/
def ext4_sblock.set_free_blocks_count (sb : ext4_sblock) (count : Nat) : ext4_sblock :=
  { sb with free_blocks_count_lo := count % 4294967296,
            free_blocks_count_hi := count / 4294967296 % 4294967296 }

/-- C1: `Superblock::load` reads exactly the 1024 bytes at offset 1024,
fails with `Corrupted` when the magic is not 0xEF53, refuses the mount
when an unknown `feature_incompat` bit is set, and otherwise returns the
parsed superblock. -/
theorem superblock_load_spec (supp : Nat) (dev : BlockDevM)
    (hbs : 0 < dev.block_size) (raw : List Nat)
    (hraw : raw = (List.range 1024).map (fun i => dev.bytes (1024 + i))) :
    (Superblock.load supp dev =
      if sblock_is_valid supp (parse_sblock raw) then
        Except.ok (parse_sblock raw)
      else
        Except.error ErrorKind.Corrupted) ∧
    ((parse_sblock raw).magic ≠ EXT4_SUPERBLOCK_MAGIC →
      Superblock.load supp dev = Except.error ErrorKind.Corrupted) ∧
    ((∃ k, (parse_sblock raw).feature_incompat.testBit k = true ∧
        supp.testBit k = false) →
      Superblock.load supp dev = Except.error ErrorKind.Corrupted) := by
  have hread : dev.read_bytes EXT4_SUPERBLOCK_OFFSET EXT4_SUPERBLOCK_SIZE = raw := by
    rw [hraw]
    exact dev.read_bytes_eq hbs 1024 1024
  have hload : Superblock.load supp dev =
      if sblock_is_valid supp (parse_sblock raw) then
        Except.ok (parse_sblock raw)
      else
        Except.error ErrorKind.Corrupted := by
    unfold Superblock.load read_superblock
    rw [hread]
    cases h : sblock_is_valid supp (parse_sblock raw) <;> simp [h]
  refine ⟨hload, ?_, ?_⟩
  · intro hmagic
    rw [hload]
    have : sblock_is_valid supp (parse_sblock raw) = false := by
      unfold sblock_is_valid
      have : ((parse_sblock raw).magic == EXT4_SUPERBLOCK_MAGIC) = false := by
        simpa using hmagic
      simp [this]
    simp [this]
  · rintro ⟨k, hk1, hk2⟩
    rw [hload]
    have hne : (parse_sblock raw).feature_incompat &&& supp ≠
        (parse_sblock raw).feature_incompat := by
      intro heq
      have := congrArg (fun n => Nat.testBit n k) heq
      simp only [Nat.testBit_and, hk1, hk2, Bool.and_false] at this
      exact Bool.false_ne_true this
    have : sblock_is_valid supp (parse_sblock raw) = false := by
      unfold sblock_is_valid
      have h2 : ((parse_sblock raw).feature_incompat &&& supp ==
          (parse_sblock raw).feature_incompat) = false := by
        simpa using hne
      simp [h2]
    simp [this]

/-- C1 witness: an all-zero device (magic 0) is rejected as `Corrupted`. -/
theorem superblock_load_spec_witness :
    Superblock.load 0 ⟨fun _ => 0, 512⟩ = Except.error ErrorKind.Corrupted :=
  (superblock_load_spec 0 ⟨fun _ => 0, 512⟩ (by decide)
      (List.replicate 1024 0) (by apply List.ext_getElem <;> simp)).2.1 (by decide)

/-- C8 counterexample: with no clock source the timestamp operations are
not no-ops — on a superblock whose `mtime`, `wtime` and `lastcheck` are
nonzero, every one of the four operations changes the corresponding
field (to the placeholder timestamp 0). -/
theorem timestamp_ops_not_noop :
    (Superblock.update_mount_time
        { sbZero with mtime := 11, wtime := 22, lastcheck := 33 }).mtime ≠ 11 ∧
    (Superblock.update_write_time
        { sbZero with mtime := 11, wtime := 22, lastcheck := 33 }).wtime ≠ 22 ∧
    (Superblock.inc_write_count
        { sbZero with mtime := 11, wtime := 22, lastcheck := 33 }).wtime ≠ 22 ∧
    (Superblock.update_check_time
        { sbZero with mtime := 11, wtime := 22, lastcheck := 33 }).lastcheck ≠ 33 := by
  refine ⟨?_, ?_, ?_, ?_⟩ <;> decide

/-- C8 amended: with no clock source, `current_timestamp()` returns the
constant 0 and each timestamp-mutation operation overwrites its target
field with 0, leaving every other field unchanged (so it is a no-op only
when the field is already 0). Restoring the single overwritten field
recovers the original superblock exactly. -/
theorem timestamp_ops_set_zero (sb : ext4_sblock) :
    (Superblock.update_mount_time sb).mtime = 0 ∧
    { Superblock.update_mount_time sb with mtime := sb.mtime } = sb ∧
    (Superblock.update_write_time sb).wtime = 0 ∧
    { Superblock.update_write_time sb with wtime := sb.wtime } = sb ∧
    (Superblock.inc_write_count sb).wtime = 0 ∧
    { Superblock.inc_write_count sb with wtime := sb.wtime } = sb ∧
    (Superblock.update_check_time sb).lastcheck = 0 ∧
    { Superblock.update_check_time sb with lastcheck := sb.lastcheck } = sb := by
  refine ⟨rfl, rfl, rfl, rfl, rfl, rfl, rfl, rfl⟩

/-! ## Inode model (src/lwext4_core/src/types.rs `ext4_inode`)

Modelled with the fields the verified claims touch; values are stored
little-endian-decoded. -/

structure ext4_inode where
  mode : Nat             -- offset 0, u16
  size_lo : Nat          -- offset 4, u32
  blocks_count_lo : Nat  -- offset 28, u32
  flags : Nat            -- offset 32, u32
  size_hi : Nat          -- offset 108, u32
  blocks_high : Nat      -- offset 116, u16
  deriving DecidableEq, Repr

/-- Deserialisation of an on-disk inode (the `read_unaligned` in
`read_inode` plus the per-field `from_le` decoding). -/
def parse_inode (b : List Nat) : ext4_inode where
  mode := le16 b 0
  size_lo := le32 b 4
  blocks_count_lo := le32 b 28
  flags := le32 b 32
  size_hi := le32 b 108
  blocks_high := le16 b 116

/-- `ext4_inode::file_size` (called throughout src/; the impl is not
under src/ — the test in src/lwext4_core/src/inode/read.rs fixes
`size_lo = 1024, size_hi = 0 → 1024`; the standard ext4 convention is
`size_lo | (size_hi << 32)`). -/
def ext4_inode.file_size (inode : ext4_inode) : Nat :=
  inode.size_lo ||| (inode.size_hi <<< 32)

/-- `EXT4_INODE_FLAG_EXTENTS` (src/lwext4_core/src/consts.rs). -/
def EXT4_INODE_FLAG_EXTENTS : Nat := 0x80000

/-- `EXT4_FEATURE_RO_COMPAT_HUGE_FILE` (referenced in
src/lwext4_core/src/fs/inode_ref.rs; the constant's definition is not
under src/ — standard ext4 value 0x8). -/
def EXT4_FEATURE_RO_COMPAT_HUGE_FILE : Nat := 0x8

/-- `EXT4_INODE_FLAG_HUGE_FILE` (referenced in
src/lwext4_core/src/fs/inode_ref.rs; the constant's definition is not
under src/ — standard ext4 value 0x40000). -/
def EXT4_INODE_FLAG_HUGE_FILE : Nat := 0x40000

/-- The loop of `inode_block_bits_count`
(src/lwext4_core/src/fs/inode_ref.rs): starting from `bits = 8`, halve
`size` until it is at most 256, incrementing `bits` each time. -/
def bits_loop (bits size : Nat) : Nat :=
  if 256 < size then bits_loop (bits + 1) (size >>> 1) else bits
termination_by size
decreasing_by
  have : size >>> 1 = size / 2 := Nat.shiftRight_one size
  omega

/-- `inode_block_bits_count` (src/lwext4_core/src/fs/inode_ref.rs). -/
def inode_block_bits_count (block_size : Nat) : Nat :=
  bits_loop 8 block_size

/-- `InodeRef::blocks_count` (src/lwext4_core/src/fs/inode_ref.rs):
low 32 bits always; the high 16 bits only when the HUGE_FILE ro_compat
feature is enabled; scaled from filesystem-block units to 512-byte units
when additionally the inode's HUGE_FILE flag is set. -/
def InodeRef.blocks_count (sb : ext4_sblock) (inode : ext4_inode) : Nat :=
  let cnt := inode.blocks_count_lo
  if Superblock.has_ro_compat_feature sb EXT4_FEATURE_RO_COMPAT_HUGE_FILE then
    let cnt := cnt ||| (inode.blocks_high <<< 32)
    if inode.flags &&& EXT4_INODE_FLAG_HUGE_FILE != 0 then
      let block_bits := inode_block_bits_count (ext4_sblock.block_size sb)
      cnt <<< (block_bits - 9)
    else
      cnt
  else
    cnt

/-- `bits_loop` computes the exponent of a power of two at least 256. -/
theorem bits_loop_pow (k : Nat) : ∀ bits, bits_loop bits (2 ^ (8 + k)) = bits + k := by
  induction k with
  | zero =>
    intro bits
    rw [bits_loop]
    norm_num
  | succ m ih =>
    intro bits
    rw [bits_loop]
    have hgt : 256 < 2 ^ (8 + (m + 1)) := by
      calc 256 = 2 ^ 8 := by norm_num
        _ < 2 ^ (8 + (m + 1)) := by
            apply Nat.pow_lt_pow_right (by norm_num)
            omega
    have hhalf : 2 ^ (8 + (m + 1)) >>> 1 = 2 ^ (8 + m) := by
      rw [Nat.shiftRight_one]
      have : 8 + (m + 1) = (8 + m) + 1 := by omega
      rw [this, Nat.pow_succ]
      omega
    rw [if_pos hgt, hhalf, ih]
    omega

/-- C7 counterexample: with the HUGE_FILE ro_compat feature disabled,
`InodeRef::blocks_count` ignores `blocks_high`, so it does not return
`blocks_count_lo | (blocks_high << 32)`: for an inode with
`blocks_count_lo = 0, blocks_high = 1` on a superblock with
`feature_ro_compat = 0`, it returns 0 instead of 2^32. -/
theorem blocks_count_high_needs_feature :
    InodeRef.blocks_count sbZero
        { mode := 0, size_lo := 0, blocks_count_lo := 0, flags := 0,
          size_hi := 0, blocks_high := 1 } ≠
      0 ||| (1 <<< 32) := by
  decide

/-- C7 amended: `InodeRef::blocks_count` returns `blocks_count_lo` alone
when the HUGE_FILE ro_compat feature is disabled; with the feature
enabled it returns `blocks_count_lo | (blocks_high << 32)` in 512-byte
units, and when the inode's HUGE_FILE flag is additionally set the
stored value is in filesystem-block units and is scaled by
`2^(log2(block_size) - 9)` (for `block_size = 2^p`, by `2^(p-9)`). -/
theorem blocks_count_spec (sb : ext4_sblock) (inode : ext4_inode) (p : Nat)
    (hbs : ext4_sblock.block_size sb = 2 ^ p) (hp : 9 ≤ p) :
    (Superblock.has_ro_compat_feature sb EXT4_FEATURE_RO_COMPAT_HUGE_FILE = false →
      InodeRef.blocks_count sb inode = inode.blocks_count_lo) ∧
    (Superblock.has_ro_compat_feature sb EXT4_FEATURE_RO_COMPAT_HUGE_FILE = true →
      inode.flags &&& EXT4_INODE_FLAG_HUGE_FILE = 0 →
      InodeRef.blocks_count sb inode =
        inode.blocks_count_lo ||| (inode.blocks_high <<< 32)) ∧
    (Superblock.has_ro_compat_feature sb EXT4_FEATURE_RO_COMPAT_HUGE_FILE = true →
      inode.flags &&& EXT4_INODE_FLAG_HUGE_FILE ≠ 0 →
      InodeRef.blocks_count sb inode =
        (inode.blocks_count_lo ||| (inode.blocks_high <<< 32)) * 2 ^ (p - 9)) := by
  have hbits : inode_block_bits_count (ext4_sblock.block_size sb) = p := by
    rw [hbs]
    unfold inode_block_bits_count
    have : p = 8 + (p - 8) := by omega
    rw [this, bits_loop_pow]
  refine ⟨?_, ?_, ?_⟩
  · intro hfeat
    unfold InodeRef.blocks_count
    simp [hfeat]
  · intro hfeat hflag
    unfold InodeRef.blocks_count
    simp [hfeat, hflag]
  · intro hfeat hflag
    unfold InodeRef.blocks_count
    simp only [hfeat, if_true, hbits]
    have hne : (inode.flags &&& EXT4_INODE_FLAG_HUGE_FILE != 0) = true := by
      simpa using hflag
    simp only [hne, if_true, Nat.shiftLeft_eq]

/-- C7 witness: a 1024-byte-block image with the HUGE_FILE feature and
flag set scales `blocks_count_lo = 3` by `2^(10-9) = 2`. -/
theorem blocks_count_spec_witness :
    InodeRef.blocks_count { sbZero with feature_ro_compat := 8 }
        { mode := 0, size_lo := 0, blocks_count_lo := 3, flags := 0x40000,
          size_hi := 0, blocks_high := 0 } =
      (3 ||| (0 <<< 32)) * 2 ^ (10 - 9) :=
  (blocks_count_spec { sbZero with feature_ro_compat := 8 }
      { mode := 0, size_lo := 0, blocks_count_lo := 3, flags := 0x40000,
        size_hi := 0, blocks_high := 0 } 10 (by decide) (by decide)).2.2
    (by decide) (by decide)

/-! ## Block-group descriptors (src/lwext4_core/src/block_group/read.rs) -/

/-- `ext4_group_desc`: the struct definition is not under src/ (only its
users are); the fields and on-disk offsets follow the standard ext4
layout the spec describes (32-byte legacy form, lo/hi split at offset 32
for the 64-byte form). -/
structure ext4_group_desc where
  block_bitmap_lo : Nat       -- offset 0, u32
  inode_bitmap_lo : Nat       -- offset 4, u32
  inode_table_lo : Nat        -- offset 8, u32
  free_blocks_count_lo : Nat  -- offset 12, u16
  free_inodes_count_lo : Nat  -- offset 14, u16
  used_dirs_count_lo : Nat    -- offset 16, u16
  block_bitmap_hi : Nat       -- offset 32, u32
  inode_bitmap_hi : Nat       -- offset 36, u32
  inode_table_hi : Nat        -- offset 40, u32
  free_blocks_count_hi : Nat  -- offset 44, u16
  free_inodes_count_hi : Nat  -- offset 46, u16
  used_dirs_count_hi : Nat    -- offset 48, u16
  deriving DecidableEq, Repr

/-- Deserialisation of an on-disk group descriptor (the `read_unaligned`
in `read_block_group_desc` plus per-field `from_le` decoding). -/
def parse_group_desc (b : List Nat) : ext4_group_desc where
  block_bitmap_lo := le32 b 0
  inode_bitmap_lo := le32 b 4
  inode_table_lo := le32 b 8
  free_blocks_count_lo := le16 b 12
  free_inodes_count_lo := le16 b 14
  used_dirs_count_lo := le16 b 16
  block_bitmap_hi := le32 b 32
  inode_bitmap_hi := le32 b 36
  inode_table_hi := le32 b 40
  free_blocks_count_hi := le16 b 44
  free_inodes_count_hi := le16 b 46
  used_dirs_count_hi := le16 b 48

/-- Size in bytes of the (full) `ext4_group_desc` struct read by
`read_block_group_desc`. -/
def GROUP_DESC_STRUCT_SIZE : Nat := 64

/-- `read_block_group_desc`
(src/lwext4_core/src/block_group/read.rs and, identically,
src/lwext4_core/src/inode/read.rs): the descriptor table starts at block
`first_data_block + 1`; descriptor `group_num` lies `group_num *
group_desc_size` bytes in. -/
def read_block_group_desc (dev : BlockDevM) (sb : ext4_sblock)
    (group_num : Nat) : ext4_group_desc :=
  let block_size := ext4_sblock.block_size sb
  let desc_size := Superblock.group_desc_size sb
  let gdt_block := sb.first_data_block + 1
  let desc_offset := gdt_block * block_size + group_num * desc_size
  parse_group_desc (dev.read_bytes desc_offset GROUP_DESC_STRUCT_SIZE)

/-- `BlockGroup::get_inode_table_first_block`
(src/lwext4_core/src/block_group/read.rs): the high half participates
only when the descriptor size exceeds the 32-byte legacy form. -/
def bg_get_inode_table_first_block (sb : ext4_sblock) (bg : ext4_group_desc) : Nat :=
  if 32 < Superblock.group_desc_size sb then
    bg.inode_table_lo ||| (bg.inode_table_hi <<< 32)
  else
    bg.inode_table_lo

/-- `ext4_group_desc::inode_table` (called by `read_inode` in
src/lwext4_core/src/inode/read.rs; the method impl is not under src/ —
modelled as the spec's 64-bit reconstruction `lo | (hi << 32)`). -/
def ext4_group_desc.inode_table (desc : ext4_group_desc) : Nat :=
  desc.inode_table_lo ||| (desc.inode_table_hi <<< 32)

/-! ## Inode lookup (src/lwext4_core/src/fs/inode_ref.rs, inode/read.rs) -/

/-- The location data computed by `InodeRef::get` (the handle's fields;
the borrowed device and superblock are threaded separately). -/
structure InodeRefM where
  inode_num : Nat
  inode_block_addr : Nat
  offset_in_block : Nat
  deriving DecidableEq, Repr

/-- `InodeRef::get` (src/lwext4_core/src/fs/inode_ref.rs): reject inode
number 0, then locate the inode inside its group's inode table. -/
def InodeRef.get (dev : BlockDevM) (sb : ext4_sblock) (inode_num : Nat) :
    Res InodeRefM :=
  if inode_num == 0 then
    Except.error ErrorKind.InvalidInput
  else
    let inodes_per_group := sb.inodes_per_group
    let block_group := (inode_num - 1) / inodes_per_group
    let index_in_group := (inode_num - 1) % inodes_per_group
    let bg := read_block_group_desc dev sb block_group
    let inode_table_block := bg_get_inode_table_first_block sb bg
    let block_size := ext4_sblock.block_size sb
    let inode_size := ext4_sblock.inode_size_eff sb
    let inodes_per_block := block_size / inode_size
    let block_index := index_in_group / inodes_per_block
    let offset_in_block := (index_in_group % inodes_per_block) * inode_size
    Except.ok
      { inode_num := inode_num,
        inode_block_addr := inode_table_block + block_index,
        offset_in_block := offset_in_block }

/-- `read_inode` (src/lwext4_core/src/inode/read.rs): reject inode
number 0, then read and deserialise the inode from the inode table. -/
def read_inode (dev : BlockDevM) (sb : ext4_sblock) (inode_num : Nat) :
    Res ext4_inode :=
  if inode_num == 0 then
    Except.error ErrorKind.InvalidInput
  else
    let inodes_per_group := sb.inodes_per_group
    let block_group := (inode_num - 1) / inodes_per_group
    let index_in_group := (inode_num - 1) % inodes_per_group
    let desc := read_block_group_desc dev sb block_group
    let inode_table_block := desc.inode_table
    let block_size := ext4_sblock.block_size sb
    let inode_size := ext4_sblock.inode_size_eff sb
    let inode_offset := inode_table_block * block_size + index_in_group * inode_size
    Except.ok (parse_inode (dev.read_bytes inode_offset inode_size))

/-- C9: inode number 0 is rejected with `InvalidInput` by both
`InodeRef::get` and `read_inode` regardless of the device contents (the
check precedes any device access), so every successfully obtained inode
handle or inode refers to a 1-based inode number. -/
theorem inode_lookup_rejects_zero :
    (∀ dev sb, InodeRef.get dev sb 0 = Except.error ErrorKind.InvalidInput) ∧
    (∀ dev sb, read_inode dev sb 0 = Except.error ErrorKind.InvalidInput) ∧
    (∀ dev sb n r, InodeRef.get dev sb n = Except.ok r → 1 ≤ n) ∧
    (∀ dev sb n i, read_inode dev sb n = Except.ok i → 1 ≤ n) := by
  refine ⟨fun dev sb => rfl, fun dev sb => rfl, ?_, ?_⟩
  · intro dev sb n r h
    by_contra hn
    have hz : n = 0 := by omega
    subst hz
    simp [InodeRef.get] at h
  · intro dev sb n i h
    by_contra hn
    have hz : n = 0 := by omega
    subst hz
    simp [read_inode] at h

/-- C9 witness: on a concrete all-zero 1024-byte-block image with 8
inodes per group, inode 2 is successfully located, and the theorem
yields `1 ≤ 2`. -/
theorem inode_lookup_rejects_zero_witness : (1 : Nat) ≤ 2 :=
  inode_lookup_rejects_zero.2.2.1 ⟨fun _ => 0, 1024⟩
    { sbZero with inodes_per_group := 8 } 2
    { inode_num := 2, inode_block_addr := 0, offset_in_block := 128 }
    (by decide)

/-! ## Extent tree: read side (src/lwext4_core/src/extent/tree.rs)

A 12-byte extent record; values are stored little-endian-decoded. -/

structure ext4_extent where
  block : Nat     -- ee_block, u32
  len : Nat       -- ee_len, u16
  start_lo : Nat  -- u32
  start_hi : Nat  -- u16
  deriving DecidableEq, Repr

/-- `ext4_extent::physical_block` (the impl is not under src/; the test
in src/lwext4_core/src/extent/tree.rs fixes
`start_lo = 0x12345678, start_hi = 0xABCD → 0xABCD12345678`, i.e.
`(start_hi << 32) | start_lo`). -/
def ext4_extent.physical_block (e : ext4_extent) : Nat :=
  (e.start_hi <<< 32) ||| e.start_lo

/-- Modelled from the spec: `ext4_extent::actual_len` (impl not under
src/, only its caller in src/lwext4_core/src/extent/tree.rs). The
spec's invariant is `len ≤ 32768`; the standard ext4 convention encodes
an unwritten extent as `len > 32768` with actual length `len - 32768`. -/
def ext4_extent.actual_len (e : ext4_extent) : Nat :=
  if e.len ≤ 32768 then e.len else e.len - 32768

/-- An extent-tree node as the read path sees it: the header's magic
validity and `max` field, and either leaf records (`depth = 0` in the
header) or index records, each index entry carrying `first_logical`
together with the content of the on-disk block its child pointer names
(`is_leaf`/`depth` of the source header corresponds to the constructor). -/
inductive ExtentNode where
  | leaf (magicOk : Bool) (max : Nat) (extents : List ext4_extent) : ExtentNode
  | index (magicOk : Bool) (max : Nat) (entries : List (Nat × ExtentNode)) : ExtentNode

/-- Magic validity of a node's header (`ext4_extent_header::is_valid`,
i.e. magic = 0xF30A; the impl is not under src/, the test in
src/lwext4_core/src/extent/tree.rs fixes it as the magic check). -/
def ExtentNode.magicOk : ExtentNode → Bool
  | ExtentNode.leaf m _ _ => m
  | ExtentNode.index m _ _ => m

/-- `ExtentTree::search_leaf_node` (src/lwext4_core/src/extent/tree.rs):
scan the leaf records in order; on the first record with
`logical_block ∈ [ee_block, ee_block + actual_len)` return
`physical_block + (logical_block - ee_block)`. -/
def search_leaf_node (extents : List ext4_extent) (lb : Nat) : Option Nat :=
  match extents with
  | [] => none
  | e :: rest =>
    if e.block ≤ lb ∧ lb < e.block + e.actual_len then
      some (e.physical_block + (lb - e.block))
    else
      search_leaf_node rest lb

/-- The target-selection scan of `ExtentTree::search_index_node`: walk
the index records in order, remembering the latest one with
`first_logical ≤ logical_block`, and stop at the first record with
`first_logical > logical_block`. -/
def scan_index (entries : List (Nat × ExtentNode)) (lb : Nat) :
    Option (Nat × ExtentNode) :=
  match entries with
  | [] => none
  | (fl, child) :: rest =>
    if fl ≤ lb then
      match scan_index rest lb with
      | some t => some t
      | none => some (fl, child)
    else
      none

/-- The scan's target is one of the scanned entries. -/
theorem scan_index_mem (entries : List (Nat × ExtentNode)) (lb fl : Nat)
    (c : ExtentNode) (h : scan_index entries lb = some (fl, c)) :
    (fl, c) ∈ entries := by
  induction entries with
  | nil => simp [scan_index] at h
  | cons hd tl ih =>
    obtain ⟨a, b⟩ := hd
    rw [scan_index] at h
    by_cases ha : a ≤ lb
    · rw [if_pos ha] at h
      cases hs : scan_index tl lb with
      | none =>
        rw [hs] at h
        simp only [Option.some.injEq, Prod.mk.injEq] at h
        obtain ⟨h1, h2⟩ := h
        subst h1
        subst h2
        exact List.mem_cons_self _ _
      | some t =>
        rw [hs] at h
        simp only [Option.some.injEq] at h
        subst h
        exact List.mem_cons_of_mem _ (ih hs)
    · rw [if_neg ha] at h
      cases h

-- `ExtentTree::find_extent_in_node` together with `search_index_node`'s
-- descent (src/lwext4_core/src/extent/tree.rs): leaves are scanned; at an
-- index node the scan's target child is read and its header magic
-- re-validated before recursing.
mutual

/-- The dispatch on `header.is_leaf()` of `find_extent_in_node`. -/
def find_extent_in_node (node : ExtentNode) (lb : Nat) : Res (Option Nat) :=
  match node with
  | ExtentNode.leaf _ _ extents => Except.ok (search_leaf_node extents lb)
  | ExtentNode.index _ _ entries => search_index_descend entries lb
termination_by sizeOf node
decreasing_by
  simp only [ExtentNode.index.sizeOf_spec]
  omega

/-- The index-node half of `find_extent_in_node`: select the target via
the scan, re-validate the child's magic and recurse. -/
def search_index_descend (entries : List (Nat × ExtentNode)) (lb : Nat) :
    Res (Option Nat) :=
  match hs : scan_index entries lb with
  | none => Except.ok none
  | some (_, child) =>
    if child.magicOk then
      find_extent_in_node child lb
    else
      Except.error ErrorKind.Corrupted
termination_by sizeOf entries
decreasing_by
  rename_i fl hcond
  have hmem := scan_index_mem entries lb fl child hs
  have h1 : sizeOf (fl, child) < sizeOf entries := List.sizeOf_lt_of_mem hmem
  simp only [Prod.mk.sizeOf_spec] at h1
  omega

end

/-- `ExtentTree::map_block` (src/lwext4_core/src/extent/tree.rs):
require the inode's EXTENTS flag, validate the root header's magic, then
search from the root. -/
def ExtentTree.map_block (inode_flags : Nat) (root : ExtentNode) (lb : Nat) :
    Res (Option Nat) :=
  if inode_flags &&& EXT4_INODE_FLAG_EXTENTS == 0 then
    Except.error ErrorKind.Unsupported
  else if !root.magicOk then
    Except.error ErrorKind.Corrupted
  else
    find_extent_in_node root lb

/-- On a leaf whose records are sorted and disjoint, the scan returns
the physical mapping of the unique record containing `lb`. -/
theorem search_leaf_node_mem (extents : List ext4_extent) (lb : Nat)
    (e : ext4_extent)
    (hsort : extents.Pairwise (fun a b => a.block + a.actual_len ≤ b.block))
    (hmem : e ∈ extents) (hlo : e.block ≤ lb) (hhi : lb < e.block + e.actual_len) :
    search_leaf_node extents lb = some (e.physical_block + (lb - e.block)) := by
  induction extents with
  | nil => cases hmem
  | cons hd tl ih =>
    rcases List.mem_cons.mp hmem with heq | htl
    · subst heq
      rw [search_leaf_node, if_pos ⟨hlo, hhi⟩]
    · have hsep : hd.block + hd.actual_len ≤ e.block :=
        (List.pairwise_cons.mp hsort).1 e htl
      have hnot : ¬(hd.block ≤ lb ∧ lb < hd.block + hd.actual_len) := by
        intro ⟨_, h2⟩
        omega
      rw [search_leaf_node, if_neg hnot]
      exact ih (List.pairwise_cons.mp hsort).2 htl

/-- On a leaf none of whose records contains `lb`, the scan returns
`none`. -/
theorem search_leaf_node_not_mem (extents : List ext4_extent) (lb : Nat)
    (h : ∀ e ∈ extents, ¬(e.block ≤ lb ∧ lb < e.block + e.actual_len)) :
    search_leaf_node extents lb = none := by
  induction extents with
  | nil => rfl
  | cons hd tl ih =>
    rw [search_leaf_node, if_neg (h hd (List.mem_cons_self _ _))]
    exact ih (fun e he => h e (List.mem_cons_of_mem hd he))

/-- On a sorted index node, the scan selects the greatest entry whose
`first_logical` is at most `lb`. -/
theorem scan_index_greatest (l₁ l₂ : List (Nat × ExtentNode))
    (fl : Nat) (child : ExtentNode) (lb : Nat)
    (h₁ : ∀ x ∈ l₁, x.1 ≤ lb) (hfl : fl ≤ lb) (h₂ : ∀ x ∈ l₂, lb < x.1) :
    scan_index (l₁ ++ (fl, child) :: l₂) lb = some (fl, child) := by
  induction l₁ with
  | nil =>
    simp only [List.nil_append]
    rw [scan_index, if_pos hfl]
    have hrest : scan_index l₂ lb = none := by
      cases l₂ with
      | nil => rfl
      | cons hd tl =>
        rw [scan_index]
        have : ¬(hd.1 ≤ lb) := by
          have := h₂ hd (List.mem_cons_self _ _)
          omega
        rw [if_neg this]
    rw [hrest]
  | cons hd tl ih =>
    simp only [List.cons_append]
    rw [scan_index, if_pos (h₁ hd (List.mem_cons_self _ _))]
    rw [ih (fun x hx => h₁ x (List.mem_cons_of_mem hd hx))]

/-- Reduction of the index-node descent when the scan finds no target. -/
theorem search_index_descend_none (entries : List (Nat × ExtentNode)) (lb : Nat)
    (h : scan_index entries lb = none) :
    search_index_descend entries lb = Except.ok none := by
  rw [search_index_descend.eq_def]
  split
  · rfl
  · rename_i fl child hs
    rw [h] at hs
    cases hs

/-- Reduction of the index-node descent when the scan finds a target. -/
theorem search_index_descend_some (entries : List (Nat × ExtentNode))
    (lb fl : Nat) (child : ExtentNode)
    (h : scan_index entries lb = some (fl, child)) :
    search_index_descend entries lb =
      (if child.magicOk then find_extent_in_node child lb
       else Except.error ErrorKind.Corrupted) := by
  rw [search_index_descend.eq_def]
  split
  · rename_i hs
    rw [h] at hs
    cases hs
  · rename_i fl' child' hs
    rw [h] at hs
    simp only [Option.some.injEq, Prod.mk.injEq] at hs
    rw [hs.2]

/-- C4: for an inode with the EXTENTS flag and a magic-valid extent
header, `ExtentTree::map_block` (a) on a leaf root with sorted disjoint
records returns `ee_start + (logical_block - ee_block)` whenever
`logical_block ∈ [ee_block, ee_block + ee_len)` for a record, (b) on a
leaf root none of whose records covers `logical_block` returns
unmapped (`none`), and (c) on an index root descends into the child of
the greatest entry with `first_logical ≤ logical_block` (re-validating
that child's magic), returning unmapped when every entry has
`first_logical > logical_block`. -/
theorem map_block_spec (flags lb : Nat)
    (hflag : flags &&& EXT4_INODE_FLAG_EXTENTS ≠ 0) :
    (∀ (max : Nat) (extents : List ext4_extent) (e : ext4_extent),
      extents.Pairwise (fun a b => a.block + a.actual_len ≤ b.block) →
      e ∈ extents → e.block ≤ lb → lb < e.block + e.actual_len →
      ExtentTree.map_block flags (ExtentNode.leaf true max extents) lb =
        Except.ok (some (e.physical_block + (lb - e.block)))) ∧
    (∀ (max : Nat) (extents : List ext4_extent),
      (∀ e ∈ extents, ¬(e.block ≤ lb ∧ lb < e.block + e.actual_len)) →
      ExtentTree.map_block flags (ExtentNode.leaf true max extents) lb =
        Except.ok none) ∧
    (∀ (max fl : Nat) (child : ExtentNode) (l₁ l₂ : List (Nat × ExtentNode)),
      (∀ x ∈ l₁, x.1 ≤ lb) → fl ≤ lb → (∀ x ∈ l₂, lb < x.1) →
      ExtentTree.map_block flags
          (ExtentNode.index true max (l₁ ++ (fl, child) :: l₂)) lb =
        (if child.magicOk then find_extent_in_node child lb
         else Except.error ErrorKind.Corrupted)) ∧
    (∀ (max : Nat) (entries : List (Nat × ExtentNode)),
      (∀ x ∈ entries, lb < x.1) →
      ExtentTree.map_block flags (ExtentNode.index true max entries) lb =
        Except.ok none) := by
  have hflagb : (flags &&& EXT4_INODE_FLAG_EXTENTS == 0) = false := by
    simpa using hflag
  refine ⟨?_, ?_, ?_, ?_⟩
  · intro max extents e hsort hmem hlo hhi
    unfold ExtentTree.map_block
    rw [hflagb]
    simp only [Bool.false_eq_true, if_false, ExtentNode.magicOk, Bool.not_true,
      find_extent_in_node]
    rw [search_leaf_node_mem extents lb e hsort hmem hlo hhi]
  · intro max extents h
    unfold ExtentTree.map_block
    rw [hflagb]
    simp only [Bool.false_eq_true, if_false, ExtentNode.magicOk, Bool.not_true,
      find_extent_in_node]
    rw [search_leaf_node_not_mem extents lb h]
  · intro max fl child l₁ l₂ h₁ hfl h₂
    unfold ExtentTree.map_block
    rw [hflagb]
    simp only [Bool.false_eq_true, if_false, ExtentNode.magicOk, Bool.not_true,
      find_extent_in_node]
    exact search_index_descend_some _ lb fl child
      (scan_index_greatest l₁ l₂ fl child lb h₁ hfl h₂)
  · intro max entries h
    unfold ExtentTree.map_block
    rw [hflagb]
    simp only [Bool.false_eq_true, if_false, ExtentNode.magicOk, Bool.not_true,
      find_extent_in_node]
    have hrest : scan_index entries lb = none := by
      cases entries with
      | nil => rfl
      | cons hd tl =>
        rw [scan_index]
        have : ¬(hd.1 ≤ lb) := by
          have := h hd (List.mem_cons_self _ _)
          omega
        rw [if_neg this]
    exact search_index_descend_none entries lb hrest

/-- C4 witness: a depth-1 tree whose index root routes block 149 into a
second leaf mapping `[100, 100+50)` to physical 1000: the theorem's
descent and leaf conjuncts give `map_block = ok (some 1049)`. -/
theorem map_block_spec_witness :
    ExtentTree.map_block 0x80000
        (ExtentNode.index true 4
          [(0, ExtentNode.leaf true 4 [⟨0, 10, 500, 0⟩]),
           (100, ExtentNode.leaf true 4 [⟨100, 50, 1000, 0⟩])]) 149 =
      Except.ok (some 1049) := by
  have hstep := (map_block_spec 0x80000 149 (by decide)).2.2.1 4 100
      (ExtentNode.leaf true 4 [⟨100, 50, 1000, 0⟩])
      [(0, ExtentNode.leaf true 4 [⟨0, 10, 500, 0⟩])] []
      (by intro x hx; simp at hx; rw [hx]; decide) (by decide)
      (by intro x hx; simp at hx)
  have hl : ExtentNode.index true 4
        [(0, ExtentNode.leaf true 4 [(⟨0, 10, 500, 0⟩ : ext4_extent)]),
         (100, ExtentNode.leaf true 4 [⟨100, 50, 1000, 0⟩])] =
      ExtentNode.index true 4
        ([(0, ExtentNode.leaf true 4 [(⟨0, 10, 500, 0⟩ : ext4_extent)])] ++
          (100, ExtentNode.leaf true 4 [⟨100, 50, 1000, 0⟩]) :: []) := rfl
  have hm : (ExtentNode.leaf true 4
      [(⟨100, 50, 1000, 0⟩ : ext4_extent)]).magicOk = true := rfl
  rw [hl, hstep, if_pos hm]
  simp only [find_extent_in_node]
  decide

/-! ## Block allocation (src/lwext4_core/src/balloc/alloc.rs)

The allocator's mutable state is modelled explicitly: the in-memory
superblock, the per-group on-device state (descriptor free-block
counter, the descriptor's stored bitmap checksum, and the block bitmap),
and the persisted superblock copy.  The checksum functions live in
balloc/checksum.rs and superblock/checksum.rs, which are not under src/;
they are kept as parameters `bitmapCsum`/`sbCsum` of the model, so every
statement below holds for an arbitrary checksum algorithm. -/

/-- Modelled from the spec: `bitmap::test_bit` (bitmap.rs is not under
src/). One bit per block; bit clear means free. -/
def bitmap_test_bit (bm : List Bool) (idx : Nat) : Bool :=
  bm.getD idx false

/-- Modelled from the spec: `bitmap::set_bit` (bitmap.rs is not under
src/). In the source it fails when the bit is already set; the allocator
only calls it on bits it has just tested to be clear, so the pure
variant suffices. -/
def bitmap_set_bit (bm : List Bool) (idx : Nat) : List Bool :=
  bm.set idx true

/-- Modelled from the spec: `bitmap::clear_bit` (bitmap.rs is not under
src/). -/
def bitmap_clear_bit (bm : List Bool) (idx : Nat) : List Bool :=
  bm.set idx false

/-- Modelled from the spec: `bitmap::find_first_zero(buf, start, upper)`
(bitmap.rs is not under src/): the smallest `i ∈ [start, upper)` whose
bit is clear, or `None`. -/
def find_first_zero (bm : List Bool) (start upper : Nat) : Option Nat :=
  ((List.range upper).drop start).find? (fun i => !(bitmap_test_bit bm i))

/-- `Superblock::blocks_count` (the `ext4_sblock` method is not under
src/ — per the spec, assembled from the lo/hi halves). -/
def ext4_sblock.blocks_count (sb : ext4_sblock) : Nat :=
  sb.blocks_count_lo ||| (sb.blocks_count_hi <<< 32)

/-- `Superblock::block_group_count` = ⌈blocks_count / blocks_per_group⌉
(the 32-bit variant is in src/lwext4_core/src/superblock.rs as
`get_block_group_count`). -/
def ext4_sblock.block_group_count (sb : ext4_sblock) : Nat :=
  (ext4_sblock.blocks_count sb + sb.blocks_per_group - 1) / sb.blocks_per_group

/-- Modelled from the spec: `Superblock::blocks_in_group_cnt` (the
method is not under src/). Groups partition the data blocks into
`blocks_per_group`-sized spans; every group but the last is full and the
last holds the remaining blocks. -/
def blocks_in_group_cnt (sb : ext4_sblock) (bgid : Nat) : Nat :=
  let cnt := ext4_sblock.block_group_count sb
  if bgid < cnt - 1 then
    sb.blocks_per_group
  else
    ext4_sblock.blocks_count sb - (cnt - 1) * sb.blocks_per_group

/-- Modelled from the spec: `get_bgid_of_block` (balloc/helpers.rs is
not under src/). Per the spec's layout, group `g` spans blocks
`[first_data_block + g * blocks_per_group, ... + blocks_per_group)`. -/
def get_bgid_of_block (sb : ext4_sblock) (baddr : Nat) : Nat :=
  (baddr - sb.first_data_block) / sb.blocks_per_group

/-- Modelled from the spec: `addr_to_idx_bg` (balloc/helpers.rs is not
under src/): the bit index of a block inside its group. -/
def addr_to_idx_bg (sb : ext4_sblock) (baddr : Nat) : Nat :=
  (baddr - sb.first_data_block) % sb.blocks_per_group

/-- Modelled from the spec: `get_block_of_bgid` (balloc/helpers.rs is
not under src/): the first block of a group. -/
def get_block_of_bgid (sb : ext4_sblock) (bgid : Nat) : Nat :=
  sb.first_data_block + bgid * sb.blocks_per_group

/-- Modelled from the spec: `bg_idx_to_addr` (balloc/helpers.rs is not
under src/): absolute address of bit `idx` of group `bgid`. -/
def bg_idx_to_addr (sb : ext4_sblock) (idx bgid : Nat) : Nat :=
  get_block_of_bgid sb bgid + idx

/-- One block group's on-device state: the descriptor's free-block
counter, the descriptor's stored bitmap checksum, and the block
bitmap. -/
structure GroupState where
  free_blocks : Nat
  bitmap_csum : Nat
  bitmap : List Bool
  deriving DecidableEq, Repr

instance : Inhabited GroupState := ⟨⟨0, 0, []⟩⟩

/-- The filesystem state the block allocator reads and writes: the
in-memory superblock, the groups, and the persisted superblock copy
(what the last `sb.write(bdev)` put on disk). -/
structure FsState where
  sb : ext4_sblock
  groups : List GroupState
  disk_sb : Option ext4_sblock
  deriving DecidableEq, Repr

/-- `write_superblock` (src/lwext4_core/src/superblock/write.rs): set
the superblock checksum (superblock/checksum.rs is not under src/ and is
kept as the parameter `sbCsum`), then write the 1024 bytes back. -/
def write_superblock (sbCsum : ext4_sblock → Nat) (st : FsState) : FsState :=
  let sb2 := { st.sb with checksum := sbCsum st.sb }
  { st with sb := sb2, disk_sb := some sb2 }

/-- The bitmap search of `try_alloc_in_group`
(src/lwext4_core/src/balloc/alloc.rs): (1) try the goal bit itself;
(2) scan forward from it to the next 64-bit-aligned boundary
(`(idx + 63) & !63`, clamped to the group size); (3) `find_first_zero`
over `[idx, blk_in_bg)`. -/
def bitmap_alloc_scan (bm : List Bool) (idx blk_in_bg : Nat) : Option Nat :=
  if !(bitmap_test_bit bm idx) then
    some idx
  else
    let end_idx := min (((idx + 63) / 64) * 64) blk_in_bg
    match ((List.range end_idx).drop (idx + 1)).find?
        (fun t => !(bitmap_test_bit bm t)) with
    | some t => some t
    | none => find_first_zero bm idx blk_in_bg

/-- `BlockAllocator::try_alloc_in_group`
(src/lwext4_core/src/balloc/alloc.rs). On success the source sets the
bit, computes the new bitmap checksum into a local copy `bg_for_csum` of
the descriptor which is then dropped (so the group's stored
`bitmap_csum` is left as it was), decrements the group's free-block
counter (`dec_free_blocks`, saturating), decrements the superblock
free-block counter when it is positive, persists the superblock, and
returns the absolute block address. -/
def try_alloc_in_group (bitmapCsum : List Bool → Nat)
    (sbCsum : ext4_sblock → Nat) (st : FsState) (bgid idx_in_bg : Nat) :
    FsState × Option Nat :=
  let sb := st.sb
  let blk_in_bg := blocks_in_group_cnt sb bgid
  let first_in_bg := get_block_of_bgid sb bgid
  let first_in_bg_index := addr_to_idx_bg sb first_in_bg
  let idx := if idx_in_bg < first_in_bg_index then first_in_bg_index else idx_in_bg
  let g := st.groups.getD bgid default
  match bitmap_alloc_scan g.bitmap idx blk_in_bg with
  | none => (st, none)
  | some rel =>
    let bm2 := bitmap_set_bit g.bitmap rel
    -- `set_bitmap_csum(sb, &mut bg_for_csum, bitmap_data)` writes the
    -- recomputed checksum into the local copy `bg_for_csum`, which the
    -- source drops; the stored descriptor checksum is not updated.
    let _bg_for_csum : Nat := bitmapCsum bm2
    let g2 : GroupState :=
      { free_blocks := g.free_blocks - 1, bitmap_csum := g.bitmap_csum,
        bitmap := bm2 }
    let fb := ext4_sblock.free_blocks_count sb
    let fb2 := if 0 < fb then fb - 1 else fb
    let sb2 := ext4_sblock.set_free_blocks_count sb fb2
    let st2 := write_superblock sbCsum
      { st with sb := sb2, groups := st.groups.set bgid g2 }
    (st2, some (bg_idx_to_addr sb rel bgid))

/-- The fallback loop of `BlockAllocator::alloc_block`: starting from
group `bgid`, try up to `count` further groups (wrapping modulo
`group_count`), skipping groups whose descriptor shows no free block. -/
def alloc_block_loop (bitmapCsum : List Bool → Nat)
    (sbCsum : ext4_sblock → Nat) (st : FsState)
    (group_count bgid count : Nat) : FsState × Res Nat :=
  match count with
  | 0 => (st, Except.error ErrorKind.NoSpace)
  | count' + 1 =>
    let free := (st.groups.getD bgid default).free_blocks
    if 0 < free then
      let first_in_bg := get_block_of_bgid st.sb bgid
      let idx_in_bg := addr_to_idx_bg st.sb first_in_bg
      match try_alloc_in_group bitmapCsum sbCsum st bgid idx_in_bg with
      | (st2, some alloc) => (st2, Except.ok alloc)
      | (st2, none) =>
        alloc_block_loop bitmapCsum sbCsum st2 group_count
          ((bgid + 1) % group_count) count'
    else
      alloc_block_loop bitmapCsum sbCsum st group_count
        ((bgid + 1) % group_count) count'

/-- `BlockAllocator::alloc_block` (src/lwext4_core/src/balloc/alloc.rs):
try the goal's group first, then every other group in rotation; fail
with `NoSpace` once all groups were tried.  (The allocator's
`last_block_bg_id` bookkeeping field only seeds later goal-less calls
and is not part of the modelled state.) -/
def BlockAllocator.alloc_block (bitmapCsum : List Bool → Nat)
    (sbCsum : ext4_sblock → Nat) (st : FsState) (goal : Nat) :
    FsState × Res Nat :=
  let sb := st.sb
  let bg_id := get_bgid_of_block sb goal
  let idx_in_bg := addr_to_idx_bg sb goal
  let free := (st.groups.getD bg_id default).free_blocks
  let group_count := ext4_sblock.block_group_count sb
  if 0 < free then
    match try_alloc_in_group bitmapCsum sbCsum st bg_id idx_in_bg with
    | (st2, some alloc) => (st2, Except.ok alloc)
    | (st2, none) =>
      alloc_block_loop bitmapCsum sbCsum st2 group_count
        ((bg_id + 1) % group_count) (group_count - 1)
  else
    alloc_block_loop bitmapCsum sbCsum st group_count
      ((bg_id + 1) % group_count) (group_count - 1)

/-- Modelled from the spec: `balloc::free_blocks` (called by
src/lwext4_core/src/extent/write.rs; the implementation is not under
src/). Per the spec's free operation, for the contiguous run
`[first, first + count)`: clear each block's bit in its group, recompute
and store the bitmap checksum in the descriptor, increment the group's
free count, increment the superblock free-block count, persist the
superblock. -/
def free_one_block (bitmapCsum : List Bool → Nat) (st : FsState)
    (baddr : Nat) : FsState :=
  let bgid := get_bgid_of_block st.sb baddr
  let idx := addr_to_idx_bg st.sb baddr
  let g := st.groups.getD bgid default
  let bm2 := bitmap_clear_bit g.bitmap idx
  let g2 : GroupState :=
    { free_blocks := g.free_blocks + 1, bitmap_csum := bitmapCsum bm2,
      bitmap := bm2 }
  { st with groups := st.groups.set bgid g2 }

/-- Modelled from the spec: `balloc::free_blocks` — see
`free_one_block`. -/
def free_blocks (bitmapCsum : List Bool → Nat) (sbCsum : ext4_sblock → Nat)
    (st : FsState) (first count : Nat) : FsState :=
  let st2 := (List.range count).foldl
    (fun s i => free_one_block bitmapCsum s (first + i)) st
  let sb2 := ext4_sblock.set_free_blocks_count st2.sb
    (ext4_sblock.free_blocks_count st2.sb + count)
  write_superblock sbCsum { st2 with sb := sb2 }

/-- A concrete bitmap checksum function used to exercise the model (the
number of set bits); the allocator's behaviour below is independent of
this choice because the recomputed checksum is dropped. -/
def bmCsumC : List Bool → Nat := fun bm => bm.count true

/-- A concrete superblock checksum function used to exercise the model. -/
def sbCsumC : ext4_sblock → Nat := fun sb => sb.free_blocks_count_lo + 1

/-- The superblock of the concrete test image: 8 blocks per group, 16
blocks, 9 free, 4096-byte blocks. -/
def sbC2 : ext4_sblock :=
  { sbZero with
    blocks_per_group := 8, blocks_count_lo := 16,
    free_blocks_count_lo := 9, log_block_size := 2 }

/-- A concrete 2-group filesystem state: group 0 has bits 0, 1, 7 set
(5 free) and a currently-correct stored bitmap checksum of 3 set bits. -/
def stC2 : FsState where
  sb := sbC2
  groups :=
    [⟨5, 3, [true, true, false, false, false, false, false, true]⟩,
     ⟨8, 0, List.replicate 8 false⟩]
  disk_sb := none

/-- The state after allocating with goal block 2 on `stC2`. -/
def stC2After : FsState :=
  (BlockAllocator.alloc_block bmCsumC sbCsumC stC2 2).1

/-- A state whose group descriptors show no free block anywhere. -/
def stC2Full : FsState where
  sb := stC2.sb
  groups := [⟨0, 0, List.replicate 8 true⟩, ⟨0, 0, List.replicate 8 true⟩]
  disk_sb := none

/-- C2: evaluation of `BlockAllocator::alloc_block` at a concrete,
internally consistent state.  The allocation succeeds and returns the
absolute address of the chosen block, the chosen bit is set, both the
group's and the superblock's free-block counters drop by one, and the
superblock is persisted — but the bitmap checksum stored in the group's
descriptor is NOT recomputed: `try_alloc_in_group` computes the new
checksum into a local descriptor copy (`bg_for_csum`) that is dropped,
so the stored checksum (3, valid for the old bitmap) is now stale for
the new bitmap (4 set bits).  When every group is exhausted the call
fails with `NoSpace`. -/
theorem alloc_block_effects_at_failing_input :
    (BlockAllocator.alloc_block bmCsumC sbCsumC stC2 2).2 = Except.ok 2 ∧
    (stC2After.groups.getD 0 default).bitmap =
      [true, true, true, false, false, false, false, true] ∧
    (stC2After.groups.getD 0 default).free_blocks = 4 ∧
    ext4_sblock.free_blocks_count stC2After.sb = 8 ∧
    stC2After.disk_sb = some stC2After.sb ∧
    (stC2After.groups.getD 0 default).bitmap_csum = 3 ∧
    bmCsumC (stC2After.groups.getD 0 default).bitmap ≠ 3 ∧
    (BlockAllocator.alloc_block bmCsumC sbCsumC stC2Full 2).2 =
      Except.error ErrorKind.NoSpace := by
  decide

/-! ## Extent tree: write side (src/lwext4_core/src/extent/write.rs)

The write operations only act on the extent root stored in the inode's
60-byte `blocks` area; they read the header's `depth`, `entries` and
`max` fields and the leaf records.  `ExtentRootM` models exactly that
(the record list stands for the `entries` valid records). -/

instance : Inhabited ext4_extent := ⟨⟨0, 0, 0, 0⟩⟩

structure ExtentRootM where
  depth : Nat
  max : Nat
  extents : List ext4_extent
  deriving DecidableEq, Repr

/-- The `(value >> 32) as u16` / `value as u32` split used whenever the
source builds an `ext4_extent` from a 48-bit physical start. -/
def mk_extent (block len start : Nat) : ext4_extent where
  block := block
  len := len
  start_lo := start % 4294967296
  start_hi := start / 4294967296 % 65536

/-- `find_extent_in_leaf` (src/lwext4_core/src/extent/write.rs): first
record with `logical_block ∈ [ee_block, ee_block + ee_len)` (note: the
write path uses the raw `ee_len`, not `actual_len`). -/
def find_extent_in_leaf : List ext4_extent → Nat → Option ext4_extent
  | [], _ => none
  | e :: rest, lb =>
    if e.block ≤ lb ∧ lb < e.block + e.len then
      some e
    else
      find_extent_in_leaf rest lb

/-- `find_extent_for_block` (src/lwext4_core/src/extent/write.rs): at
depth 0 scan the root's records; deeper trees are unsupported. -/
def find_extent_for_block (root : ExtentRootM) (lb : Nat) :
    Res (Option ext4_extent) :=
  if root.depth = 0 then
    Except.ok (find_extent_in_leaf root.extents lb)
  else
    Except.error ErrorKind.Unsupported

/-- `u32::MAX`. -/
def U32_MAX : Nat := 4294967295

/-- The scan of `find_next_allocated_block`
(src/lwext4_core/src/extent/write.rs): smallest `ee_block` that is both
greater than `lb` and smaller than the running minimum. -/
def next_alloc_scan : List ext4_extent → Nat → Nat → Nat
  | [], _, next => next
  | e :: rest, lb, next =>
    next_alloc_scan rest lb (if lb < e.block ∧ e.block < next then e.block else next)

/-- `find_next_allocated_block` (src/lwext4_core/src/extent/write.rs):
at depth 0, the smallest `ee_block > lb` (or `u32::MAX`); deeper trees
fall through to `u32::MAX`. -/
def find_next_allocated_block (root : ExtentRootM) (lb : Nat) : Nat :=
  if root.depth = 0 then
    next_alloc_scan root.extents lb U32_MAX
  else
    U32_MAX

/-- `find_goal` (src/lwext4_core/src/extent/write.rs): extrapolate from
the extent containing `lb` when one exists (`saturating_sub` backwards),
else 0 (allocator chooses). -/
def find_goal (root : ExtentRootM) (lb : Nat) : Res Nat :=
  match find_extent_for_block root lb with
  | Except.error e => Except.error e
  | Except.ok (some e) =>
    if e.block < lb then
      Except.ok (e.physical_block + (lb - e.block))
    else
      Except.ok (e.physical_block - (e.block - lb))
  | Except.ok none => Except.ok 0

/-- The sorted-position insertion of `insert_extent_simple`: place the
new record before the first existing record with a larger
`logical_block` (shifting the tail), else append. -/
def insert_sorted : List ext4_extent → ext4_extent → List ext4_extent
  | [], e => [e]
  | x :: rest, e =>
    if e.block < x.block then
      e :: x :: rest
    else
      x :: insert_sorted rest e

/-- `insert_extent_simple` (src/lwext4_core/src/extent/write.rs): the
closure passed to `with_inode_mut` returns `Err(Unsupported)` for a
depth ≠ 0 root and `Err(NoSpace)` for a full root before mutating
anything, and inserts (keeping records sorted, bumping `entries`)
otherwise.  `with_inode_mut` wraps the closure's value in its own
`Result`, and the call site ends in a single `?` followed by a
semicolon, so the closure's inner `Result` is discarded: the function
then marks the inode dirty and returns `Ok(())` in every case.  The
root is therefore left unchanged — with success still reported — on
the depth ≠ 0 and root-full paths. -/
def insert_extent_simple (root : ExtentRootM) (e : ext4_extent) :
    Res ExtentRootM :=
  if root.depth ≠ 0 then
    Except.ok root
  else if root.max ≤ root.extents.length then
    Except.ok root
  else
    Except.ok { root with extents := insert_sorted root.extents e }

/-- `get_blocks` (src/lwext4_core/src/extent/write.rs), steps 2-3: the
unmapped path.  Without `create`, return `(0, 0)`.  With `create`,
compute the batch bound from the next allocated block (which the source
then overrides with 1, single-block allocation), compute the goal,
allocate one block, build the new extent `{lb, 1, phys}` and pass it to
`insert_extent_simple`.  The source matches on the insert result and,
in the `Err` arm, frees the just-allocated block and propagates the
error — but because `insert_extent_simple` discards the closure's
inner errors and returns `Ok(())` even for a full or unsupported root,
that arm is unreachable here: it could fire only on a device error. -/
def get_blocks_create (bitmapCsum : List Bool → Nat)
    (sbCsum : ext4_sblock → Nat) (st : FsState) (root : ExtentRootM)
    (lb max_blocks : Nat) (create : Bool) :
    (FsState × ExtentRootM) × Res (Nat × Nat) :=
  if !create then
    ((st, root), Except.ok (0, 0))
  else
    let next_allocated := find_next_allocated_block root lb
    let _allocated_count :=
      if lb < next_allocated then min (next_allocated - lb) max_blocks
      else max_blocks
    match find_goal root lb with
    | Except.error e => ((st, root), Except.error e)
    | Except.ok goal =>
      -- the source overwrites allocated_count with 1 before allocating
      let allocated_count := 1
      match BlockAllocator.alloc_block bitmapCsum sbCsum st goal with
      | (st2, Except.error e) => ((st2, root), Except.error e)
      | (st2, Except.ok physical_block) =>
        let new_extent := mk_extent lb allocated_count physical_block
        match insert_extent_simple root new_extent with
        | Except.ok root2 =>
          ((st2, root2), Except.ok (physical_block, allocated_count))
        | Except.error e =>
          let st3 := free_blocks bitmapCsum sbCsum st2 physical_block
            allocated_count
          ((st3, root), Except.error e)

/-- `get_blocks` (src/lwext4_core/src/extent/write.rs), step 1 plus the
dispatch: when an extent containing `lb` exists, return its mapping and
the remaining in-extent run capped by `max_blocks`; otherwise take the
unmapped path. -/
def get_blocks (bitmapCsum : List Bool → Nat) (sbCsum : ext4_sblock → Nat)
    (st : FsState) (root : ExtentRootM) (lb max_blocks : Nat)
    (create : Bool) : (FsState × ExtentRootM) × Res (Nat × Nat) :=
  match find_extent_for_block root lb with
  | Except.error e => ((st, root), Except.error e)
  | Except.ok (some e) =>
    if e.block ≤ lb ∧ lb < e.block + e.len then
      let offset := lb - e.block
      let physical_block := e.physical_block + offset
      let remaining := e.len - offset
      let allocated := min remaining max_blocks
      ((st, root), Except.ok (physical_block, allocated))
    else
      get_blocks_create bitmapCsum sbCsum st root lb max_blocks create
  | Except.ok none =>
    get_blocks_create bitmapCsum sbCsum st root lb max_blocks create

/-- On a depth-0 root with sorted disjoint records, the write-path leaf
scan finds the unique record containing `lb`. -/
theorem find_extent_in_leaf_mem (extents : List ext4_extent) (lb : Nat)
    (e : ext4_extent)
    (hsort : extents.Pairwise (fun a b => a.block + a.len ≤ b.block))
    (hmem : e ∈ extents) (hlo : e.block ≤ lb) (hhi : lb < e.block + e.len) :
    find_extent_in_leaf extents lb = some e := by
  induction extents with
  | nil => cases hmem
  | cons hd tl ih =>
    rcases List.mem_cons.mp hmem with heq | htl
    · subst heq
      rw [find_extent_in_leaf, if_pos ⟨hlo, hhi⟩]
    · have hsep : hd.block + hd.len ≤ e.block :=
        (List.pairwise_cons.mp hsort).1 e htl
      have hnot : ¬(hd.block ≤ lb ∧ lb < hd.block + hd.len) := by
        intro ⟨_, h2⟩
        omega
      rw [find_extent_in_leaf, if_neg hnot]
      exact ih (List.pairwise_cons.mp hsort).2 htl

/-- When no record contains `lb`, the write-path leaf scan returns
`none`. -/
theorem find_extent_in_leaf_not_mem (extents : List ext4_extent) (lb : Nat)
    (h : ∀ e ∈ extents, ¬(e.block ≤ lb ∧ lb < e.block + e.len)) :
    find_extent_in_leaf extents lb = none := by
  induction extents with
  | nil => rfl
  | cons hd tl ih =>
    rw [find_extent_in_leaf, if_neg (h hd (List.mem_cons_self _ _))]
    exact ih (fun e he => h e (List.mem_cons_of_mem hd he))

/-- C6: on a depth-0 extent tree, `get_blocks` (a) returns the covering
extent's physical block for `lb` together with the remaining in-extent
run capped by `max_blocks`, leaving all state unchanged, whenever some
record maps `lb`; and (b) returns `(0, 0)` (state unchanged) when `lb`
is unmapped and `create` is false. -/
theorem get_blocks_lookup_spec (bitmapCsum : List Bool → Nat)
    (sbCsum : ext4_sblock → Nat) (st : FsState) (root : ExtentRootM)
    (lb max_blocks : Nat) (create : Bool) (hdepth : root.depth = 0) :
    (∀ e : ext4_extent,
      root.extents.Pairwise (fun a b => a.block + a.len ≤ b.block) →
      e ∈ root.extents → e.block ≤ lb → lb < e.block + e.len →
      get_blocks bitmapCsum sbCsum st root lb max_blocks create =
        ((st, root), Except.ok (e.physical_block + (lb - e.block),
          min (e.len - (lb - e.block)) max_blocks))) ∧
    ((∀ e ∈ root.extents, ¬(e.block ≤ lb ∧ lb < e.block + e.len)) →
      create = false →
      get_blocks bitmapCsum sbCsum st root lb max_blocks create =
        ((st, root), Except.ok (0, 0))) := by
  constructor
  · intro e hsort hmem hlo hhi
    unfold get_blocks find_extent_for_block
    rw [if_pos hdepth, find_extent_in_leaf_mem root.extents lb e hsort hmem hlo hhi]
    simp only [if_pos (And.intro hlo hhi)]
  · intro hnone hcreate
    unfold get_blocks find_extent_for_block
    rw [if_pos hdepth, find_extent_in_leaf_not_mem root.extents lb hnone]
    subst hcreate
    rfl

/-- C6 witness: a root mapping `[10, 10 + 5)` to physical 100: reading
logical 12 with `max = 2` yields `(102, 2)`, and an unmapped logical 99
with `create = false` yields `(0, 0)`. -/
theorem get_blocks_lookup_spec_witness :
    get_blocks bmCsumC sbCsumC stC2 ⟨0, 4, [⟨10, 5, 100, 0⟩]⟩ 12 2 false =
      ((stC2, ⟨0, 4, [⟨10, 5, 100, 0⟩]⟩), Except.ok (102, 2)) ∧
    get_blocks bmCsumC sbCsumC stC2 ⟨0, 4, [⟨10, 5, 100, 0⟩]⟩ 99 7 false =
      ((stC2, ⟨0, 4, [⟨10, 5, 100, 0⟩]⟩), Except.ok (0, 0)) := by
  constructor
  · have h := (get_blocks_lookup_spec bmCsumC sbCsumC stC2
        ⟨0, 4, [⟨10, 5, 100, 0⟩]⟩ 12 2 false rfl).1 ⟨10, 5, 100, 0⟩
      (by decide) (by decide) (by decide) (by decide)
    rw [h]
    decide
  · exact (get_blocks_lookup_spec bmCsumC sbCsumC stC2
        ⟨0, 4, [⟨10, 5, 100, 0⟩]⟩ 99 7 false rfl).2 (by decide) rfl

/-! ## Rollback of a failed create (claim C3)

Helper lemmas about `List.set`/`List.getD`, inversion lemmas for the
allocator, and the rollback theorem. -/

theorem getD_set_self {α : Type} (l : List α) (i : Nat) (a d : α)
    (h : i < l.length) : (l.set i a).getD i d = a := by
  induction l generalizing i with
  | nil => simp at h
  | cons hd tl ih =>
    cases i with
    | zero => rfl
    | succ j =>
      simp only [List.set_cons_succ, List.getD_cons_succ]
      exact ih j (by simpa using h)

theorem getD_set_ne {α : Type} (l : List α) (i j : Nat) (a d : α)
    (h : i ≠ j) : (l.set i a).getD j d = l.getD j d := by
  induction l generalizing i j with
  | nil => rfl
  | cons hd tl ih =>
    cases i with
    | zero =>
      cases j with
      | zero => exact absurd rfl h
      | succ k => rfl
    | succ i' =>
      cases j with
      | zero => rfl
      | succ k =>
        simp only [List.set_cons_succ, List.getD_cons_succ]
        exact ih i' k (by omega)

theorem set_false_of_getD_false (l : List Bool) (i : Nat)
    (h : l.getD i false = false) : l.set i false = l := by
  induction l generalizing i with
  | nil => rfl
  | cons hd tl ih =>
    cases i with
    | zero =>
      simp only [List.getD_cons_zero] at h
      simp [h]
    | succ j =>
      simp only [List.getD_cons_succ] at h
      simp [ih j h]

/-- Every index the bitmap search returns names a clear bit, and lies
either at the goal index itself or inside `[0, blk_in_bg)`. -/
theorem bitmap_alloc_scan_some (bm : List Bool) (idx blk rel : Nat)
    (h : bitmap_alloc_scan bm idx blk = some rel) :
    bitmap_test_bit bm rel = false ∧ (rel = idx ∨ rel < blk) := by
  unfold bitmap_alloc_scan at h
  by_cases h1 : bitmap_test_bit bm idx
  · simp only [h1, Bool.not_true, Bool.false_eq_true, if_false] at h
    cases h2 : ((List.range (min (((idx + 63) / 64) * 64) blk)).drop (idx + 1)).find?
        (fun t => !(bitmap_test_bit bm t)) with
    | some t =>
      rw [h2] at h
      simp only [Option.some.injEq] at h
      subst h
      have hp := List.find?_some h2
      have hmem := List.mem_of_find?_eq_some h2
      have hmem2 := List.drop_subset _ _ hmem
      have hlt := List.mem_range.mp hmem2
      refine ⟨by simpa using hp, Or.inr ?_⟩
      omega
    | none =>
      rw [h2] at h
      have hp := List.find?_some h
      have hmem := List.mem_of_find?_eq_some h
      have hmem2 := List.drop_subset _ _ hmem
      have hlt := List.mem_range.mp hmem2
      exact ⟨by simpa using hp, Or.inr hlt⟩
  · simp only [Bool.not_eq_true] at h1
    simp only [h1, Bool.not_false, if_true, Option.some.injEq] at h
    subst h
    exact ⟨h1, Or.inl rfl⟩

/-- The state produced by a successful `try_alloc_in_group` at group
`bgid`, bit `rel` (named so the inversion lemmas below can refer to
it). -/
def alloc_applied (sbCsum : ext4_sblock → Nat) (st : FsState)
    (bgid rel : Nat) : FsState :=
  let g := st.groups.getD bgid default
  let g2 : GroupState :=
    { free_blocks := g.free_blocks - 1, bitmap_csum := g.bitmap_csum,
      bitmap := bitmap_set_bit g.bitmap rel }
  let fb := ext4_sblock.free_blocks_count st.sb
  let fb2 := if 0 < fb then fb - 1 else fb
  write_superblock sbCsum
    { st with sb := ext4_sblock.set_free_blocks_count st.sb fb2,
              groups := st.groups.set bgid g2 }

/-- Inversion of a successful `try_alloc_in_group`. -/
theorem try_alloc_in_group_some_inv (bitmapCsum : List Bool → Nat)
    (sbCsum : ext4_sblock → Nat) (st : FsState) (bgid idx : Nat)
    (st2 : FsState) (addr : Nat)
    (h : try_alloc_in_group bitmapCsum sbCsum st bgid idx = (st2, some addr)) :
    ∃ rel,
      bitmap_alloc_scan (st.groups.getD bgid default).bitmap
        (if idx < addr_to_idx_bg st.sb (get_block_of_bgid st.sb bgid)
          then addr_to_idx_bg st.sb (get_block_of_bgid st.sb bgid) else idx)
        (blocks_in_group_cnt st.sb bgid) = some rel ∧
      addr = bg_idx_to_addr st.sb rel bgid ∧
      st2 = alloc_applied sbCsum st bgid rel := by
  simp only [try_alloc_in_group] at h
  split at h
  · have := congrArg Prod.snd h
    simp at this
  · rename_i rel heq
    have h1 := congrArg Prod.fst h
    have h2 := congrArg Prod.snd h
    simp only [Option.some.injEq] at h2
    exact ⟨rel, heq, h2.symm, h1.symm⟩

/-- A failed `try_alloc_in_group` leaves the state untouched. -/
theorem try_alloc_in_group_none_inv (bitmapCsum : List Bool → Nat)
    (sbCsum : ext4_sblock → Nat) (st : FsState) (bgid idx : Nat)
    (st2 : FsState)
    (h : try_alloc_in_group bitmapCsum sbCsum st bgid idx = (st2, none)) :
    st2 = st := by
  simp only [try_alloc_in_group] at h
  split at h
  · exact (congrArg Prod.fst h).symm
  · have := congrArg Prod.snd h
    simp at this

/-- A successful allocation out of the fallback loop came from a single
successful `try_alloc_in_group` on the original state, in a group whose
descriptor showed a free block, at that group's first bit index. -/
theorem alloc_block_loop_ok (bitmapCsum : List Bool → Nat)
    (sbCsum : ext4_sblock → Nat) :
    ∀ (count : Nat) (st : FsState) (gc bgid : Nat) (st2 : FsState) (phys : Nat),
      alloc_block_loop bitmapCsum sbCsum st gc bgid count =
        (st2, Except.ok phys) →
      ∃ bg, 0 < (st.groups.getD bg default).free_blocks ∧
        try_alloc_in_group bitmapCsum sbCsum st bg
          (addr_to_idx_bg st.sb (get_block_of_bgid st.sb bg)) =
          (st2, some phys) := by
  intro count
  induction count with
  | zero =>
    intro st gc bgid st2 phys h
    simp only [alloc_block_loop] at h
    have := congrArg Prod.snd h
    simp at this
  | succ n ih =>
    intro st gc bgid st2 phys h
    simp only [alloc_block_loop] at h
    by_cases hfree : 0 < (st.groups.getD bgid default).free_blocks
    · rw [if_pos hfree] at h
      split at h
      · rename_i st3 alloc htry
        injection h with h1 h2
        injection h2 with h3
        exact ⟨bgid, hfree, by rw [htry, h1, h3]⟩
      · rename_i st3 htry
        have hst := try_alloc_in_group_none_inv bitmapCsum sbCsum st bgid _
          st3 htry
        exact hst ▸ ih st3 gc _ st2 phys h
    · rw [if_neg hfree] at h
      exact ih st gc _ st2 phys h

/-- A successful `BlockAllocator::alloc_block` is a single successful
`try_alloc_in_group` on the original state, in a group whose descriptor
showed a free block, at an in-group bit index. -/
theorem alloc_block_ok (bitmapCsum : List Bool → Nat)
    (sbCsum : ext4_sblock → Nat) (st : FsState) (goal : Nat) (st2 : FsState)
    (phys : Nat)
    (h : BlockAllocator.alloc_block bitmapCsum sbCsum st goal =
      (st2, Except.ok phys)) :
    ∃ bg base, 0 < (st.groups.getD bg default).free_blocks ∧
      try_alloc_in_group bitmapCsum sbCsum st bg
        (addr_to_idx_bg st.sb base) = (st2, some phys) := by
  simp only [BlockAllocator.alloc_block] at h
  by_cases hfree :
      0 < (st.groups.getD (get_bgid_of_block st.sb goal) default).free_blocks
  · rw [if_pos hfree] at h
    split at h
    · rename_i st3 alloc htry
      injection h with h1 h2
      injection h2 with h3
      exact ⟨get_bgid_of_block st.sb goal, goal, hfree, by rw [htry, h1, h3]⟩
    · rename_i st3 htry
      have hst := try_alloc_in_group_none_inv bitmapCsum sbCsum st _ _ st3 htry
      obtain ⟨bg, hf, htry2⟩ := alloc_block_loop_ok bitmapCsum sbCsum _ st3 _ _
        st2 phys h
      exact hst ▸ ⟨bg, get_block_of_bgid st3.sb bg, hf, htry2⟩
  · rw [if_neg hfree] at h
    obtain ⟨bg, hf, htry2⟩ := alloc_block_loop_ok bitmapCsum sbCsum _ st _ _
      st2 phys h
    exact ⟨bg, get_block_of_bgid st.sb bg, hf, htry2⟩

/-- Reading back `set_free_blocks_count` recovers the value modulo
2^64 (the lo/hi split). -/
theorem free_blocks_count_set (sb : ext4_sblock) (v : Nat) :
    ext4_sblock.free_blocks_count (ext4_sblock.set_free_blocks_count sb v) =
      v % 2 ^ 64 := by
  unfold ext4_sblock.free_blocks_count ext4_sblock.set_free_blocks_count
  have h : (2 : Nat) ^ 64 = 4294967296 * 4294967296 := by norm_num
  rw [h, Nat.mod_mul]
  ring

/-- `blocks_in_group_cnt` never exceeds `blocks_per_group`. -/
theorem blocks_in_group_cnt_le (sb : ext4_sblock)
    (hG : 0 < sb.blocks_per_group) (bgid : Nat) :
    blocks_in_group_cnt sb bgid ≤ sb.blocks_per_group := by
  unfold blocks_in_group_cnt
  set G := sb.blocks_per_group with hGdef
  set bc := ext4_sblock.blocks_count sb with hbc
  set cnt := ext4_sblock.block_group_count sb with hcnt
  by_cases hlt : bgid < cnt - 1
  · simp [hlt]
  · simp only [hlt, if_false]
    have hceil : bc ≤ cnt * G := by
      rw [hcnt]
      unfold ext4_sblock.block_group_count
      rw [← hbc, ← hGdef]
      have hdm := Nat.div_add_mod (bc + G - 1) G
      have hmod : (bc + G - 1) % G < G := Nat.mod_lt _ hG
      have hcomm : (bc + G - 1) / G * G = G * ((bc + G - 1) / G) :=
        Nat.mul_comm _ _
      omega
    rcases Nat.eq_zero_or_pos cnt with h0 | hpos
    · rw [h0]
      simp only [Nat.zero_sub, Nat.zero_mul, Nat.sub_zero]
      rw [h0, Nat.zero_mul] at hceil
      omega
    · have hsucc : cnt - 1 + 1 = cnt := Nat.succ_pred_eq_of_pos hpos
      have : (cnt - 1) * G + G = cnt * G := by
        calc (cnt - 1) * G + G = (cnt - 1 + 1) * G := by ring
          _ = cnt * G := by rw [hsucc]
      omega

/-- Rollback core: freeing the single block a successful
`try_alloc_in_group` just allocated restores every group's bitmap and
free counter and the superblock free-block count. -/
theorem free_after_alloc (bitmapCsum : List Bool → Nat)
    (sbCsum : ext4_sblock → Nat) (st : FsState) (bgid rel : Nat)
    (hG : 0 < st.sb.blocks_per_group)
    (hrel : rel < st.sb.blocks_per_group)
    (hfree : 0 < (st.groups.getD bgid default).free_blocks)
    (hbit : bitmap_test_bit (st.groups.getD bgid default).bitmap rel = false)
    (hfb : 0 < ext4_sblock.free_blocks_count st.sb)
    (hfb64 : ext4_sblock.free_blocks_count st.sb < 2 ^ 64) :
    (∀ bg,
      ((free_blocks bitmapCsum sbCsum (alloc_applied sbCsum st bgid rel)
          (bg_idx_to_addr st.sb rel bgid) 1).groups.getD bg default).bitmap =
        (st.groups.getD bg default).bitmap ∧
      ((free_blocks bitmapCsum sbCsum (alloc_applied sbCsum st bgid rel)
          (bg_idx_to_addr st.sb rel bgid) 1).groups.getD bg default).free_blocks =
        (st.groups.getD bg default).free_blocks) ∧
    ext4_sblock.free_blocks_count
        (free_blocks bitmapCsum sbCsum (alloc_applied sbCsum st bgid rel)
          (bg_idx_to_addr st.sb rel bgid) 1).sb =
      ext4_sblock.free_blocks_count st.sb := by
  have hlen : bgid < st.groups.length := by
    by_contra hlen
    have hdef : (st.groups.getD bgid default).free_blocks = 0 := by
      rw [List.getD_eq_default _ _ (by omega)]
      rfl
    omega
  -- geometry of the freed address
  have haddr : bg_idx_to_addr st.sb rel bgid =
      st.sb.first_data_block + (bgid * st.sb.blocks_per_group + rel) := by
    unfold bg_idx_to_addr get_block_of_bgid
    omega
  have hbgid : (bgid * st.sb.blocks_per_group + rel) / st.sb.blocks_per_group =
      bgid := by
    rw [Nat.mul_comm bgid _, Nat.mul_add_div hG, Nat.div_eq_of_lt hrel]
    omega
  have hidx : (bgid * st.sb.blocks_per_group + rel) % st.sb.blocks_per_group =
      rel := by
    rw [Nat.mul_comm bgid _, Nat.mul_add_mod]
    exact Nat.mod_eq_of_lt hrel
  -- name the allocated-from group's fields
  rcases hgety : st.groups.getD bgid default with ⟨gf, gc, gb⟩
  rw [hgety] at hfree hbit
  simp only [bitmap_test_bit] at hbit
  have hfree' : 0 < gf := hfree
  have halloc_groups : (alloc_applied sbCsum st bgid rel).groups =
      st.groups.set bgid ⟨gf - 1, gc, bitmap_set_bit gb rel⟩ := by
    unfold alloc_applied write_superblock
    dsimp only
    rw [hgety]
  have halloc_sb_geo_G : (alloc_applied sbCsum st bgid rel).sb.blocks_per_group =
      st.sb.blocks_per_group := rfl
  have halloc_sb_geo_F : (alloc_applied sbCsum st bgid rel).sb.first_data_block =
      st.sb.first_data_block := rfl
  have halloc_fb : ext4_sblock.free_blocks_count
      (alloc_applied sbCsum st bgid rel).sb =
      ext4_sblock.free_blocks_count st.sb - 1 := by
    show ext4_sblock.free_blocks_count
      { ext4_sblock.set_free_blocks_count st.sb
          (if 0 < ext4_sblock.free_blocks_count st.sb
            then ext4_sblock.free_blocks_count st.sb - 1
            else ext4_sblock.free_blocks_count st.sb) with
        checksum := _ } = _
    rw [if_pos hfb]
    have hck : ext4_sblock.free_blocks_count
        { ext4_sblock.set_free_blocks_count st.sb
            (ext4_sblock.free_blocks_count st.sb - 1) with
          checksum := sbCsum (ext4_sblock.set_free_blocks_count st.sb
            (ext4_sblock.free_blocks_count st.sb - 1)) } =
        ext4_sblock.free_blocks_count (ext4_sblock.set_free_blocks_count st.sb
          (ext4_sblock.free_blocks_count st.sb - 1)) := rfl
    rw [hck, free_blocks_count_set]
    omega
  have hbm_restore : bitmap_clear_bit (bitmap_set_bit gb rel) rel = gb := by
    unfold bitmap_clear_bit bitmap_set_bit
    rw [List.set_set]
    exact set_false_of_getD_false gb rel hbit
  have hfinal_groups :
      (free_blocks bitmapCsum sbCsum (alloc_applied sbCsum st bgid rel)
        (bg_idx_to_addr st.sb rel bgid) 1).groups =
      st.groups.set bgid ⟨gf - 1 + 1, bitmapCsum gb, gb⟩ := by
    unfold free_blocks write_superblock
    simp only [List.range_succ, List.range_zero, List.nil_append,
      List.foldl_cons, List.foldl_nil]
    unfold free_one_block get_bgid_of_block addr_to_idx_bg
    dsimp only
    rw [halloc_groups, halloc_sb_geo_G, halloc_sb_geo_F, haddr]
    have hsub : st.sb.first_data_block + (bgid * st.sb.blocks_per_group + rel)
        + 0 - st.sb.first_data_block = bgid * st.sb.blocks_per_group + rel := by
      omega
    rw [hsub, hbgid, hidx]
    rw [getD_set_self _ _ _ _ hlen]
    rw [List.set_set]
    dsimp only
    rw [hbm_restore]
  have hfinal_sb : ext4_sblock.free_blocks_count
      (free_blocks bitmapCsum sbCsum (alloc_applied sbCsum st bgid rel)
        (bg_idx_to_addr st.sb rel bgid) 1).sb =
      (ext4_sblock.free_blocks_count
        (alloc_applied sbCsum st bgid rel).sb + 1) % 2 ^ 64 := by
    unfold free_blocks write_superblock
    simp only [List.range_succ, List.range_zero, List.nil_append,
      List.foldl_cons, List.foldl_nil]
    have hsbeq : (free_one_block bitmapCsum (alloc_applied sbCsum st bgid rel)
        (bg_idx_to_addr st.sb rel bgid + 0)).sb =
        (alloc_applied sbCsum st bgid rel).sb := rfl
    rw [hsbeq]
    have hck : ∀ (sb : ext4_sblock) (c : Nat),
        ext4_sblock.free_blocks_count { sb with checksum := c } =
        ext4_sblock.free_blocks_count sb := fun _ _ => rfl
    rw [hck, free_blocks_count_set]
  refine ⟨?_, ?_⟩
  · intro bg
    rw [hfinal_groups]
    by_cases hbg : bg = bgid
    · subst hbg
      rw [getD_set_self _ _ _ _ hlen, hgety]
      constructor
      · rfl
      · show gf - 1 + 1 = gf
        omega
    · rw [getD_set_ne _ _ _ _ _ (fun hx => hbg hx.symm)]
      exact ⟨rfl, rfl⟩
  · rw [hfinal_sb, halloc_fb]
    have hone : ext4_sblock.free_blocks_count st.sb - 1 + 1 =
        ext4_sblock.free_blocks_count st.sb := by omega
    rw [hone, Nat.mod_eq_of_lt hfb64]

/-- The state after allocating with goal 0 on `stC2`: the allocator
has set bit 2 in group 0 and decremented both free counters. -/
def stC3After : FsState :=
  (BlockAllocator.alloc_block bmCsumC sbCsumC stC2 0).1

/-- C3: the claimed rollback does not happen.  On `stC2` with a full
single-slot depth-0 root (`max = 1`, one record at logical block 5, so
logical block 0 is unmapped), a create-mode `get_blocks` allocates
block 2, and the insertion then hits the root-full case — but because
`insert_extent_simple` discards the closure's inner `Err(NoSpace)`
(the single `?` at its `with_inode_mut` call site) it reports success,
so `get_blocks` returns `Ok((2, 1))` with the root unchanged: no error
is propagated, `free_blocks` is never called, and the allocation
persists (group 0's bitmap gains bit 2, its free counter drops 5 → 4,
the superblock free count drops 9 → 8) while logical block 0 remains
unmapped — the fresh block is leaked, not freed. -/
theorem get_blocks_no_rollback_at_failing_input :
    get_blocks bmCsumC sbCsumC stC2 ⟨0, 1, [⟨5, 1, 55, 0⟩]⟩ 0 4 true =
      ((stC3After, ⟨0, 1, [⟨5, 1, 55, 0⟩]⟩), Except.ok (2, 1)) ∧
    find_extent_in_leaf [⟨5, 1, 55, 0⟩] 0 = none ∧
    (stC2.groups.getD 0 default).bitmap =
      [true, true, false, false, false, false, false, true] ∧
    (stC3After.groups.getD 0 default).bitmap =
      [true, true, true, false, false, false, false, true] ∧
    (stC2.groups.getD 0 default).free_blocks = 5 ∧
    (stC3After.groups.getD 0 default).free_blocks = 4 ∧
    ext4_sblock.free_blocks_count stC2.sb = 9 ∧
    ext4_sblock.free_blocks_count stC3After.sb = 8 := by
  decide

/-! ## Extent space removal (src/lwext4_core/src/extent/write.rs,
`remove_space` / `remove_space_simple` / `apply_extent_removal`) -/

/-- The per-extent removal order collected by `remove_space_simple`. -/
structure ExtentModification where
  index : Nat
  ee_block : Nat
  ee_len : Nat
  ee_start : Nat
  deriving DecidableEq, Repr

/-- The collection pass of `remove_space_simple`: walk the records in
index order and record, for each one overlapping `[frm, to]`, its index
and fields. -/
def collect_mods (extents : List ext4_extent) (frm tob : Nat) :
    List ExtentModification :=
  (List.range extents.length).filterMap (fun i =>
    let e := extents.getD i default
    let ee_end := e.block + e.len - 1
    if ee_end < frm ∨ tob < e.block then
      none
    else
      some ⟨i, e.block, e.len, e.physical_block⟩)

/-- `remove_extent_at_index` (src/lwext4_core/src/extent/write.rs):
shift the tail down over the removed record and decrement `entries`.
The closure's `Err(InvalidInput)` for an out-of-range index is
discarded at the `with_inode_mut` call site (single `?` on the nested
`Result`), so the function reports `Ok(())` with the root unchanged
on that path too. -/
def remove_extent_at_index (root : ExtentRootM) (index : Nat) :
    Res ExtentRootM :=
  if root.extents.length ≤ index then
    Except.ok root
  else
    Except.ok { root with extents := root.extents.eraseIdx index }

/-- `update_extent_at_index` (src/lwext4_core/src/extent/write.rs):
overwrite the record at `index`.  As in `remove_extent_at_index`, the
closure's `Err(InvalidInput)` for an out-of-range index is discarded
by the single `?` on the nested `Result`, so that path returns
`Ok(())` with the root unchanged. -/
def update_extent_at_index (root : ExtentRootM)
    (index new_block new_len new_start : Nat) : Res ExtentRootM :=
  if root.extents.length ≤ index then
    Except.ok root
  else
    Except.ok { root with
      extents := root.extents.set index (mk_extent new_block new_len new_start) }

/-- `apply_extent_removal` (src/lwext4_core/src/extent/write.rs): the
four-way case analysis on how `[frm, to]` overlaps the extent
`[ee_block, ee_block + ee_len)`, freeing the covered physical blocks
and deleting / truncating / splitting the record. -/
def apply_extent_removal (bitmapCsum : List Bool → Nat)
    (sbCsum : ext4_sblock → Nat) (st : FsState) (root : ExtentRootM)
    (extent_idx ee_block ee_len ee_start frm tob : Nat) :
    Res (FsState × ExtentRootM) :=
  let ee_end := ee_block + ee_len - 1
  if frm ≤ ee_block ∧ ee_end ≤ tob then
    -- case 1: fully covered
    let st2 := free_blocks bitmapCsum sbCsum st ee_start ee_len
    match remove_extent_at_index root extent_idx with
    | Except.error e => Except.error e
    | Except.ok root2 => Except.ok (st2, root2)
  else if frm ≤ ee_block ∧ tob < ee_end ∧ ee_block ≤ tob then
    -- case 2: overlap at the start
    let removed_len := tob - ee_block + 1
    let new_len := ee_len - removed_len
    let new_block := tob + 1
    let new_start := ee_start + removed_len
    let st2 := free_blocks bitmapCsum sbCsum st ee_start removed_len
    match update_extent_at_index root extent_idx new_block new_len new_start with
    | Except.error e => Except.error e
    | Except.ok root2 => Except.ok (st2, root2)
  else if ee_block < frm ∧ ee_end ≤ tob ∧ frm ≤ ee_end then
    -- case 3: overlap at the end
    let removed_len := ee_end - frm + 1
    let new_len := ee_len - removed_len
    let removed_start := ee_start + (frm - ee_block)
    let st2 := free_blocks bitmapCsum sbCsum st removed_start removed_len
    match update_extent_at_index root extent_idx ee_block new_len ee_start with
    | Except.error e => Except.error e
    | Except.ok root2 => Except.ok (st2, root2)
  else if ee_block < frm ∧ tob < ee_end then
    -- case 4: strictly interior (split)
    let left_len := frm - ee_block
    let middle_len := tob - frm + 1
    let right_len := ee_end - tob
    let middle_start := ee_start + left_len
    let right_block := tob + 1
    let right_start := ee_start + (left_len + middle_len)
    let st2 := free_blocks bitmapCsum sbCsum st middle_start middle_len
    match update_extent_at_index root extent_idx ee_block left_len ee_start with
    | Except.error e => Except.error e
    | Except.ok root2 =>
      match insert_extent_simple root2 (mk_extent right_block right_len right_start) with
      | Except.error e => Except.error e
      | Except.ok root3 => Except.ok (st2, root3)
  else
    Except.ok (st, root)

/-- `remove_space_simple` (src/lwext4_core/src/extent/write.rs): collect
the overlapping records, then apply the removals in reverse index order
(`modifications.iter().rev()`) so earlier indices stay valid across
shifts. -/
def remove_space_simple (bitmapCsum : List Bool → Nat)
    (sbCsum : ext4_sblock → Nat) (st : FsState) (root : ExtentRootM)
    (frm tob : Nat) : Res (FsState × ExtentRootM) :=
  let mods := collect_mods root.extents frm tob
  mods.reverse.foldlM
    (fun p m => apply_extent_removal bitmapCsum sbCsum p.1 p.2 m.index
      m.ee_block m.ee_len m.ee_start frm tob)
    (st, root)

/-- `remove_space` (src/lwext4_core/src/extent/write.rs): depth-0 trees
only. -/
def remove_space (bitmapCsum : List Bool → Nat) (sbCsum : ext4_sblock → Nat)
    (st : FsState) (root : ExtentRootM) (frm tob : Nat) :
    Res (FsState × ExtentRootM) :=
  if root.depth ≠ 0 then
    Except.error ErrorKind.Unsupported
  else
    remove_space_simple bitmapCsum sbCsum st root frm tob

theorem getD_mem {α : Type} (l : List α) (i : Nat) (d : α)
    (h : i < l.length) : l.getD i d ∈ l := by
  induction l generalizing i with
  | nil => simp at h
  | cons hd tl ih =>
    cases i with
    | zero => exact List.mem_cons_self _ _
    | succ j =>
      simp only [List.getD_cons_succ]
      exact List.mem_cons_of_mem _ (ih j (by simpa using h))

/-- When every record is disjoint from `[frm, tob]`, nothing is
collected and `remove_space` is the identity. -/
theorem remove_space_disjoint (bitmapCsum : List Bool → Nat)
    (sbCsum : ext4_sblock → Nat) (st : FsState) (root : ExtentRootM)
    (frm tob : Nat) (hdepth : root.depth = 0)
    (h : ∀ e ∈ root.extents, e.block + e.len - 1 < frm ∨ tob < e.block) :
    remove_space bitmapCsum sbCsum st root frm tob = Except.ok (st, root) := by
  unfold remove_space
  rw [if_neg (fun hx => hx hdepth)]
  unfold remove_space_simple
  have hmods : collect_mods root.extents frm tob = [] := by
    unfold collect_mods
    rw [List.filterMap_eq_nil]
    intro i hi
    have hi' := List.mem_range.mp hi
    dsimp only
    rw [if_pos (h (root.extents.getD i default) (getD_mem _ _ _ hi'))]
  rw [hmods]
  rfl

/-- On a single-record root overlapping `[frm, tob]`, `remove_space` is
exactly one `apply_extent_removal` at index 0. -/
theorem remove_space_single (bitmapCsum : List Bool → Nat)
    (sbCsum : ext4_sblock → Nat) (st : FsState) (mx frm tob : Nat)
    (e : ext4_extent)
    (hover : ¬(e.block + e.len - 1 < frm ∨ tob < e.block)) :
    remove_space bitmapCsum sbCsum st ⟨0, mx, [e]⟩ frm tob =
      apply_extent_removal bitmapCsum sbCsum st ⟨0, mx, [e]⟩ 0 e.block e.len
        e.physical_block frm tob := by
  unfold remove_space
  rw [if_neg (fun hx => hx rfl)]
  unfold remove_space_simple
  have hmods : collect_mods [e] frm tob =
      [⟨0, e.block, e.len, e.physical_block⟩] := by
    unfold collect_mods
    show (List.range 1).filterMap _ = _
    rw [show List.range 1 = [0] from rfl]
    simp only [List.filterMap_cons, List.filterMap_nil, List.getD_cons_zero]
    rw [if_neg hover]
  show (collect_mods [e] frm tob).reverse.foldlM _ _ = _
  rw [hmods]
  simp only [List.reverse_cons, List.reverse_nil, List.nil_append,
    List.foldlM_cons, List.foldlM_nil]
  simp only [bind_pure]

/-- On a two-record root with both records overlapping `[frm, tob]`,
`remove_space` applies the removal at index 1 first (reverse index
order), then at index 0. -/
theorem remove_space_double (bitmapCsum : List Bool → Nat)
    (sbCsum : ext4_sblock → Nat) (st : FsState) (mx frm tob : Nat)
    (e1 e2 : ext4_extent)
    (hov1 : ¬(e1.block + e1.len - 1 < frm ∨ tob < e1.block))
    (hov2 : ¬(e2.block + e2.len - 1 < frm ∨ tob < e2.block)) :
    remove_space bitmapCsum sbCsum st ⟨0, mx, [e1, e2]⟩ frm tob =
      (apply_extent_removal bitmapCsum sbCsum st ⟨0, mx, [e1, e2]⟩ 1 e2.block
          e2.len e2.physical_block frm tob) >>= (fun p =>
        apply_extent_removal bitmapCsum sbCsum p.1 p.2 0 e1.block e1.len
          e1.physical_block frm tob) := by
  unfold remove_space
  rw [if_neg (fun hx => hx rfl)]
  unfold remove_space_simple
  have hmods : collect_mods [e1, e2] frm tob =
      [⟨0, e1.block, e1.len, e1.physical_block⟩,
       ⟨1, e2.block, e2.len, e2.physical_block⟩] := by
    unfold collect_mods
    show (List.range 2).filterMap _ = _
    rw [show List.range 2 = [0, 1] from rfl]
    simp only [List.filterMap_cons, List.filterMap_nil, List.getD_cons_zero,
      List.getD_cons_succ]
    rw [if_neg hov1, if_neg hov2]
  show (collect_mods [e1, e2] frm tob).reverse.foldlM _ _ = _
  rw [hmods]
  simp only [List.reverse_cons, List.reverse_nil, List.nil_append,
    List.cons_append, List.foldlM_cons, List.foldlM_nil]
  simp only [bind_pure]

/-- C5: `remove_space(inode, from, to)` on a depth-0 tree performs the
claimed case analysis. (i) Records disjoint from `[frm, tob]` are left
unchanged (state and root identical). On a root `[e]` with
`E = [ee_block, ee_block + ee_len)`: (ii) fully covered records have
their physical blocks freed and the entry deleted (shift-down);
(iii) an overlap at the start frees the head and advances
`ee_block`/`ee_start` while shrinking `ee_len`; (iv) an overlap at the
end frees the tail and shrinks `ee_len`; (v) a strictly interior range
frees the middle and splits the record into a left portion and a newly
inserted right portion. (vi) Affected records are processed in reverse
index order: with two fully covered records the index-1 record is freed
before the index-0 record and both deletions land on valid indices. -/
theorem remove_space_spec (bitmapCsum : List Bool → Nat)
    (sbCsum : ext4_sblock → Nat) (st : FsState) (frm tob : Nat) :
    (∀ (root : ExtentRootM), root.depth = 0 →
      (∀ e ∈ root.extents, e.block + e.len - 1 < frm ∨ tob < e.block) →
      remove_space bitmapCsum sbCsum st root frm tob = Except.ok (st, root)) ∧
    (∀ (mx : Nat) (e : ext4_extent), 1 ≤ e.len →
      frm ≤ e.block → e.block + e.len - 1 ≤ tob →
      remove_space bitmapCsum sbCsum st ⟨0, mx, [e]⟩ frm tob =
        Except.ok (free_blocks bitmapCsum sbCsum st e.physical_block e.len,
          ⟨0, mx, []⟩)) ∧
    (∀ (mx : Nat) (e : ext4_extent), 1 ≤ e.len →
      frm ≤ e.block → e.block ≤ tob → tob < e.block + e.len - 1 →
      remove_space bitmapCsum sbCsum st ⟨0, mx, [e]⟩ frm tob =
        Except.ok (free_blocks bitmapCsum sbCsum st e.physical_block
            (tob - e.block + 1),
          ⟨0, mx, [mk_extent (tob + 1) (e.len - (tob - e.block + 1))
            (e.physical_block + (tob - e.block + 1))]⟩)) ∧
    (∀ (mx : Nat) (e : ext4_extent), 1 ≤ e.len →
      e.block < frm → frm ≤ e.block + e.len - 1 → e.block + e.len - 1 ≤ tob →
      remove_space bitmapCsum sbCsum st ⟨0, mx, [e]⟩ frm tob =
        Except.ok (free_blocks bitmapCsum sbCsum st
            (e.physical_block + (frm - e.block)) (e.block + e.len - 1 - frm + 1),
          ⟨0, mx, [mk_extent e.block (e.len - (e.block + e.len - 1 - frm + 1))
            e.physical_block]⟩)) ∧
    (∀ (mx : Nat) (e : ext4_extent), 1 ≤ e.len → 2 ≤ mx → frm ≤ tob →
      e.block < frm → tob < e.block + e.len - 1 →
      remove_space bitmapCsum sbCsum st ⟨0, mx, [e]⟩ frm tob =
        Except.ok (free_blocks bitmapCsum sbCsum st
            (e.physical_block + (frm - e.block)) (tob - frm + 1),
          ⟨0, mx, [mk_extent e.block (frm - e.block) e.physical_block,
            mk_extent (tob + 1) (e.block + e.len - 1 - tob)
              (e.physical_block + ((frm - e.block) + (tob - frm + 1)))]⟩)) ∧
    (∀ (mx : Nat) (e1 e2 : ext4_extent), 1 ≤ e1.len → 1 ≤ e2.len →
      frm ≤ e1.block → e1.block + e1.len - 1 ≤ tob →
      frm ≤ e2.block → e2.block + e2.len - 1 ≤ tob →
      remove_space bitmapCsum sbCsum st ⟨0, mx, [e1, e2]⟩ frm tob =
        Except.ok (free_blocks bitmapCsum sbCsum
            (free_blocks bitmapCsum sbCsum st e2.physical_block e2.len)
            e1.physical_block e1.len,
          ⟨0, mx, []⟩)) := by
  refine ⟨fun root hd h => remove_space_disjoint bitmapCsum sbCsum st root frm
    tob hd h, ?_, ?_, ?_, ?_, ?_⟩
  · -- (ii) fully covered
    intro mx e hlen h1 h2
    rw [remove_space_single bitmapCsum sbCsum st mx frm tob e (by omega)]
    simp only [apply_extent_removal]
    rw [if_pos (show frm ≤ e.block ∧ e.block + e.len - 1 ≤ tob by omega)]
    have hrem : remove_extent_at_index ⟨0, mx, [e]⟩ 0 =
        Except.ok ⟨0, mx, []⟩ := by
      unfold remove_extent_at_index
      rw [if_neg (by simp)]
      rfl
    rw [hrem]
  · -- (iii) overlap at the start
    intro mx e hlen h1 h2 h3
    rw [remove_space_single bitmapCsum sbCsum st mx frm tob e (by omega)]
    simp only [apply_extent_removal]
    rw [if_neg (show ¬(frm ≤ e.block ∧ e.block + e.len - 1 ≤ tob) by omega)]
    rw [if_pos (show frm ≤ e.block ∧ tob < e.block + e.len - 1 ∧ e.block ≤ tob
      by omega)]
    have hupd : update_extent_at_index ⟨0, mx, [e]⟩ 0 (tob + 1)
        (e.len - (tob - e.block + 1)) (e.physical_block + (tob - e.block + 1)) =
        Except.ok ⟨0, mx, [mk_extent (tob + 1) (e.len - (tob - e.block + 1))
          (e.physical_block + (tob - e.block + 1))]⟩ := by
      unfold update_extent_at_index
      rw [if_neg (by simp)]
      rfl
    rw [hupd]
  · -- (iv) overlap at the end
    intro mx e hlen h1 h2 h3
    rw [remove_space_single bitmapCsum sbCsum st mx frm tob e (by omega)]
    simp only [apply_extent_removal]
    rw [if_neg (show ¬(frm ≤ e.block ∧ e.block + e.len - 1 ≤ tob) by omega)]
    rw [if_neg (show ¬(frm ≤ e.block ∧ tob < e.block + e.len - 1 ∧
      e.block ≤ tob) by omega)]
    rw [if_pos (show e.block < frm ∧ e.block + e.len - 1 ≤ tob ∧
      frm ≤ e.block + e.len - 1 by omega)]
    have hupd : update_extent_at_index ⟨0, mx, [e]⟩ 0 e.block
        (e.len - (e.block + e.len - 1 - frm + 1)) e.physical_block =
        Except.ok ⟨0, mx, [mk_extent e.block
          (e.len - (e.block + e.len - 1 - frm + 1)) e.physical_block]⟩ := by
      unfold update_extent_at_index
      rw [if_neg (by simp)]
      rfl
    rw [hupd]
  · -- (v) strictly interior: split
    intro mx e hlen hmx hfr h1 h2
    rw [remove_space_single bitmapCsum sbCsum st mx frm tob e (by omega)]
    simp only [apply_extent_removal]
    rw [if_neg (show ¬(frm ≤ e.block ∧ e.block + e.len - 1 ≤ tob) by omega)]
    rw [if_neg (show ¬(frm ≤ e.block ∧ tob < e.block + e.len - 1 ∧
      e.block ≤ tob) by omega)]
    rw [if_neg (show ¬(e.block < frm ∧ e.block + e.len - 1 ≤ tob ∧
      frm ≤ e.block + e.len - 1) by omega)]
    rw [if_pos (show e.block < frm ∧ tob < e.block + e.len - 1 by omega)]
    have hupd : update_extent_at_index ⟨0, mx, [e]⟩ 0 e.block (frm - e.block)
        e.physical_block =
        Except.ok ⟨0, mx, [mk_extent e.block (frm - e.block)
          e.physical_block]⟩ := by
      unfold update_extent_at_index
      rw [if_neg (by simp)]
      rfl
    have hins : insert_extent_simple
        ⟨0, mx, [mk_extent e.block (frm - e.block) e.physical_block]⟩
        (mk_extent (tob + 1) (e.block + e.len - 1 - tob)
          (e.physical_block + ((frm - e.block) + (tob - frm + 1)))) =
        Except.ok ⟨0, mx, [mk_extent e.block (frm - e.block) e.physical_block,
          mk_extent (tob + 1) (e.block + e.len - 1 - tob)
            (e.physical_block + ((frm - e.block) + (tob - frm + 1)))]⟩ := by
      unfold insert_extent_simple
      rw [if_neg (by simp)]
      rw [if_neg (by
        show ¬(mx ≤ List.length [mk_extent e.block (frm - e.block)
          e.physical_block])
        simp only [List.length_cons, List.length_nil]
        omega)]
      unfold insert_sorted
      rw [if_neg (by
        show ¬(tob + 1 < e.block)
        omega)]
      rfl
    rw [hupd]
    dsimp only
    rw [hins]
  · -- (vi) reverse index order on two fully covered records
    intro mx e1 e2 hl1 hl2 h1 h2 h3 h4
    rw [remove_space_double bitmapCsum sbCsum st mx frm tob e1 e2 (by omega)
      (by omega)]
    have happ2 : apply_extent_removal bitmapCsum sbCsum st ⟨0, mx, [e1, e2]⟩ 1
        e2.block e2.len e2.physical_block frm tob =
        Except.ok (free_blocks bitmapCsum sbCsum st e2.physical_block e2.len,
          ⟨0, mx, [e1]⟩) := by
      simp only [apply_extent_removal]
      rw [if_pos (show frm ≤ e2.block ∧ e2.block + e2.len - 1 ≤ tob by omega)]
      have hrem : remove_extent_at_index ⟨0, mx, [e1, e2]⟩ 1 =
          Except.ok ⟨0, mx, [e1]⟩ := by
        unfold remove_extent_at_index
        rw [if_neg (by simp)]
        rfl
      rw [hrem]
    rw [happ2]
    show apply_extent_removal bitmapCsum sbCsum _ _ 0 e1.block e1.len
      e1.physical_block frm tob = _
    simp only [apply_extent_removal]
    rw [if_pos (show frm ≤ e1.block ∧ e1.block + e1.len - 1 ≤ tob by omega)]
    have hrem : remove_extent_at_index ⟨0, mx, [e1]⟩ 0 =
        Except.ok ⟨0, mx, []⟩ := by
      unfold remove_extent_at_index
      rw [if_neg (by simp)]
      rfl
    rw [hrem]

/-- C5 witness: removing `[0, 10]` from a root with the single fully
covered record `[3, 3+2)` at physical 40 frees blocks `[40, 42)` and
deletes the entry. -/
theorem remove_space_spec_witness :
    remove_space bmCsumC sbCsumC stC2 ⟨0, 4, [⟨3, 2, 40, 0⟩]⟩ 0 10 =
      Except.ok (free_blocks bmCsumC sbCsumC stC2 40 2, ⟨0, 4, []⟩) := by
  have h := (remove_space_spec bmCsumC sbCsumC stC2 0 10).2.1 4 ⟨3, 2, 40, 0⟩
    (by decide) (by decide) (by decide)
  rw [h]
  decide

/-! ## File reads (src/lwext4_core/src/fs/file.rs,
src/lwext4_core/src/extent/tree.rs `ExtentTree::read_file`) -/

/-- `ExtentTree::read_block` (src/lwext4_core/src/extent/tree.rs): map
the logical block and read the physical block; an unmapped block is
`NotFound`. -/
def tree_read_block (dev : BlockDevM) (flags : Nat) (root : ExtentNode)
    (lb : Nat) : Res (List Nat) :=
  match ExtentTree.map_block flags root lb with
  | Except.error e => Except.error e
  | Except.ok none => Except.error ErrorKind.NotFound
  | Except.ok (some physical_block) => Except.ok (dev.read_block physical_block)

/-- The `while bytes_read < to_read` loop of `ExtentTree::read_file`.
Each pass reads the block containing `offset + bytes_read` and copies
`min (block_size - block_offset, to_read - bytes_read)` bytes.  `fuel`
bounds the recursion; with `0 < block_size` every pass copies at least
one byte, so `fuel = to_read` passes suffice and the fuel case never
fires then (fuel exhaustion returns the bytes read so far). -/
def read_file_loop (dev : BlockDevM) (flags : Nat) (root : ExtentNode)
    (block_size offset to_read : Nat) :
    Nat → Nat → List Nat → Res (Nat × List Nat)
  | 0, bytes_read, acc => Except.ok (bytes_read, acc)
  | fuel + 1, bytes_read, acc =>
    if bytes_read < to_read then
      let current_offset := offset + bytes_read
      let block_num := current_offset / block_size
      let block_offset := current_offset % block_size
      let bytes_in_block :=
        min (block_size - block_offset) (to_read - bytes_read)
      match tree_read_block dev flags root block_num with
      | Except.error e => Except.error e
      | Except.ok block_buf =>
        read_file_loop dev flags root block_size offset to_read fuel
          (bytes_read + bytes_in_block)
          (acc ++ ((block_buf.drop block_offset).take bytes_in_block))
    else
      Except.ok (bytes_read, acc)

/-- `ExtentTree::read_file` (src/lwext4_core/src/extent/tree.rs): reads
at or past `file_size` return 0 bytes; otherwise up to
`min (buf_len, file_size - offset)` bytes are read block by block. -/
def ExtentTree.read_file (dev : BlockDevM) (flags : Nat) (root : ExtentNode)
    (block_size file_size offset buf_len : Nat) : Res (Nat × List Nat) :=
  if file_size ≤ offset then
    Except.ok (0, [])
  else
    let remaining := file_size - offset
    let to_read := min buf_len remaining
    read_file_loop dev flags root block_size offset to_read to_read 0 []

/-- An open file handle (src/lwext4_core/src/fs/file.rs `File`): the
inode (whose 60-byte `blocks` area is the parsed extent root `root`),
the read cursor and the filesystem block size. -/
structure FileM where
  inode : ext4_inode
  root : ExtentNode
  offset : Nat
  block_size : Nat

/-- `File::read` (src/lwext4_core/src/fs/file.rs): EOF (cursor at or
past `file_size`) returns `Ok(0)` before any extent-tree access;
otherwise delegate to `ExtentTree::read_file` and advance the cursor by
the bytes read. -/
def File.read (dev : BlockDevM) (f : FileM) (buf_len : Nat) :
    Res (Nat × FileM × List Nat) :=
  if ext4_inode.file_size f.inode ≤ f.offset then
    Except.ok (0, f, [])
  else
    match ExtentTree.read_file dev f.inode.flags f.root f.block_size
        (ext4_inode.file_size f.inode) f.offset buf_len with
    | Except.error e => Except.error e
    | Except.ok (n, data) =>
      Except.ok (n, { f with offset := f.offset + n }, data)

/-- The loop never reports more than `to_read` bytes. -/
theorem read_file_loop_le (dev : BlockDevM) (flags : Nat) (root : ExtentNode)
    (block_size offset to_read : Nat) :
    ∀ (fuel bytes_read : Nat) (acc : List Nat) (n : Nat) (data : List Nat),
      bytes_read ≤ to_read →
      read_file_loop dev flags root block_size offset to_read fuel bytes_read
        acc = Except.ok (n, data) →
      n ≤ to_read := by
  intro fuel
  induction fuel with
  | zero =>
    intro bytes_read acc n data hle h
    simp only [read_file_loop] at h
    injection h with h1
    injection h1 with h2
    omega
  | succ m ih =>
    intro bytes_read acc n data hle h
    simp only [read_file_loop] at h
    by_cases hlt : bytes_read < to_read
    · rw [if_pos hlt] at h
      cases hread : tree_read_block dev flags root
          ((offset + bytes_read) / block_size) with
      | error e =>
        rw [hread] at h
        cases h
      | ok block_buf =>
        rw [hread] at h
        exact ih _ _ _ _ (by omega) h
    · rw [if_neg hlt] at h
      injection h with h1
      injection h1 with h2
      omega

/-- C10: (a) for every open file whose cursor is at or beyond
`file_size`, `File::read` returns `Ok(0)` leaving the handle unchanged —
for every device and extent tree, i.e. without consulting the tree; and
(b) below `file_size` a successful read returns at most
`file_size - offset` bytes (reads are capped at EOF, not failed). -/
theorem file_read_spec :
    (∀ (dev : BlockDevM) (f : FileM) (buf_len : Nat),
      ext4_inode.file_size f.inode ≤ f.offset →
      File.read dev f buf_len = Except.ok (0, f, [])) ∧
    (∀ (dev : BlockDevM) (f : FileM) (buf_len n : Nat) (f2 : FileM)
        (data : List Nat),
      f.offset < ext4_inode.file_size f.inode →
      File.read dev f buf_len = Except.ok (n, f2, data) →
      n ≤ ext4_inode.file_size f.inode - f.offset) := by
  constructor
  · intro dev f buf_len hle
    unfold File.read
    rw [if_pos hle]
  · intro dev f buf_len n f2 data hlt h
    unfold File.read at h
    rw [if_neg (by omega)] at h
    unfold ExtentTree.read_file at h
    rw [if_neg (by omega)] at h
    cases hloop : read_file_loop dev f.inode.flags f.root f.block_size f.offset
        (min buf_len (ext4_inode.file_size f.inode - f.offset))
        (min buf_len (ext4_inode.file_size f.inode - f.offset)) 0 [] with
    | error e =>
      rw [hloop] at h
      cases h
    | ok p =>
      rw [hloop] at h
      obtain ⟨n', data'⟩ := p
      have hle := read_file_loop_le dev f.inode.flags f.root f.block_size
        f.offset (min buf_len (ext4_inode.file_size f.inode - f.offset)) _ 0 []
        n' data' (by omega) hloop
      dsimp only at h
      injection h with h1
      injection h1 with h2 h3
      subst h2
      omega

/-- C10 witness: a file of size 6 read at cursor 6 yields `Ok(0)` (EOF
path, conjunct a), and a zero-length read at cursor 1 succeeds with
`0 ≤ 6 - 1` bytes (conjunct b). -/
theorem file_read_spec_witness :
    File.read ⟨fun _ => 7, 4⟩
        ⟨{ mode := 0, size_lo := 6, blocks_count_lo := 0, flags := 0x80000,
           size_hi := 0, blocks_high := 0 },
         ExtentNode.leaf true 4 [⟨0, 2, 9, 0⟩], 6, 4⟩ 10 =
      Except.ok (0,
        ⟨{ mode := 0, size_lo := 6, blocks_count_lo := 0, flags := 0x80000,
           size_hi := 0, blocks_high := 0 },
         ExtentNode.leaf true 4 [⟨0, 2, 9, 0⟩], 6, 4⟩, []) ∧
    (1 : Nat) ≤ 6 - 1 ∧ (0 : Nat) ≤ 6 - 1 := by
  refine ⟨?_, ?_, ?_⟩
  · exact file_read_spec.1 ⟨fun _ => 7, 4⟩
      ⟨{ mode := 0, size_lo := 6, blocks_count_lo := 0, flags := 0x80000,
         size_hi := 0, blocks_high := 0 },
       ExtentNode.leaf true 4 [⟨0, 2, 9, 0⟩], 6, 4⟩ 10 (by decide)
  · omega
  · exact file_read_spec.2 ⟨fun _ => 7, 4⟩
      ⟨{ mode := 0, size_lo := 6, blocks_count_lo := 0, flags := 0x80000,
         size_hi := 0, blocks_high := 0 },
       ExtentNode.leaf true 4 [⟨0, 2, 9, 0⟩], 1, 4⟩ 0 0
      ⟨{ mode := 0, size_lo := 6, blocks_count_lo := 0, flags := 0x80000,
         size_hi := 0, blocks_high := 0 },
       ExtentNode.leaf true 4 [⟨0, 2, 9, 0⟩], 1, 4⟩ [] (by decide) (by rfl)

end Lwext4
